import Mathlib

/-!
Shallow embedding of the Kaki lexer (src/src/compiler/lexer.rs) together with
the token-kind predicates of src/src/compiler/token.rs.

Modelling conventions:
* The source text is represented as the list of its extended grapheme
  clusters, each grapheme being a `String` (so the CRLF cluster is the single
  element "\r\n").  All cursor arithmetic in the Rust code is in graphemes;
  the secondary byte cursor (`index_bytes` / `mark_bytes`) is a performance
  device kept in lockstep with the grapheme cursor and is not modelled
  separately: `text()` (a byte-range slice of the source) is modelled as the
  grapheme slice `[mark, index)`.  The `prev` field of the Rust struct is
  never read anywhere and is omitted.
* Loops of the Rust code are modelled with an explicit fuel parameter; a
  result of `none` at every fuel means the loop never terminates, while
  `some` is the value the Rust function returns.  Recursive calls and loop
  iterations consume fuel.
-/

namespace Kaki

/-- Test that a string contains an ASCII lowercase character
(`is_lower` in lexer.rs / util/text.rs). -/
def is_lower (s : String) : Bool :=
  match s with
  | "a" | "b" | "c" | "d" | "e" | "f" | "g" | "h" | "i" | "j" | "k" | "l" | "m"
  | "n" | "o" | "p" | "q" | "r" | "s" | "t" | "u" | "v" | "w" | "x" | "y" | "z" => true
  | _ => false

/-- Test that a string contains an ASCII uppercase character (`is_upper`). -/
def is_upper (s : String) : Bool :=
  match s with
  | "A" | "B" | "C" | "D" | "E" | "F" | "G" | "H" | "I" | "J" | "K" | "L" | "M"
  | "N" | "O" | "P" | "Q" | "R" | "S" | "T" | "U" | "V" | "W" | "X" | "Y" | "Z" => true
  | _ => false

/-- ASCII alphabetic character or underscore (`is_alpha`). -/
def is_alpha (s : String) : Bool :=
  is_lower s || is_upper s || s == "_"

/-- ASCII decimal digit (`is_digit`). -/
def is_digit (s : String) : Bool :=
  match s with
  | "0" | "1" | "2" | "3" | "4" | "5" | "6" | "7" | "8" | "9" => true
  | _ => false

/-- ASCII alphabetic character, underscore, or decimal digit (`is_alphanum`). -/
def is_alphanum (s : String) : Bool :=
  is_alpha s || is_digit s

/-- ASCII binary digit (`is_bin_digit`). -/
def is_bin_digit (s : String) : Bool :=
  match s with
  | "0" | "1" => true
  | _ => false

/-- ASCII octal digit (`is_oct_digit`). -/
def is_oct_digit (s : String) : Bool :=
  match s with
  | "0" | "1" | "2" | "3" | "4" | "5" | "6" | "7" => true
  | _ => false

/-- ASCII hexadecimal digit (`is_hex_digit`). -/
def is_hex_digit (s : String) : Bool :=
  is_digit s ||
    match s with
    | "a" | "b" | "c" | "d" | "e" | "f" | "A" | "B" | "C" | "D" | "E" | "F" => true
    | _ => false

/-- The token-kind vocabulary used by the monolithic lexer of lexer.rs.
The variant names are exactly the `TokenKind` names that lexer.rs applies
(`use TokenKind::*`); the enum with these variants is not itself present
under src (token.rs defines a different vocabulary, embedded separately
below), so the constructor list is taken from the uses in lexer.rs. -/
inductive TokenKind where
  | Space | NewLine
  | CommentLine | CommentBlock
  | NameLower | NameUpper | NameUnderscore | NameAnon
  | IntBin | IntOct | IntDec | IntHex
  | Float
  | StringSingle | StringMulti | StringSmart
  | Amp | AmpAmp | At | AtAt | AtBraceL | Bang | BangEq
  | BracketL | BracketR | BraceL | BraceR | BackSlash | Caret
  | Colon | ColonColon | Comma | Dot | Eq | EqEq
  | Gt | GtEq | GtGt | Lt | LtEq | LtEqGt | LtLt
  | Minus | ParenL | ParenR | Percent | Pipe | PipePipe | Plus
  | Question | QuestionEq | Semicolon | Slash | SlashSlash
  | Star | StarStar | Tilde
  deriving DecidableEq, Repr

/-- The types of errors that can occur during lexing (`LexerErrorKind`). -/
inductive LexerErrorKind where
  | Incomplete
  | Invalid
  | UnknownSequence
  deriving DecidableEq, Repr

/-- Position of some text in a source, in grapheme offsets
(src/compiler/span.rs).  The Rust field `end` is called `stop` here because
`end` is a Lean keyword. -/
structure Span where
  start : Nat
  stop : Nat
  deriving DecidableEq, Repr

/-- A token of source code (`Token`); `text` is the covered grapheme slice. -/
structure Token where
  text : List String
  kind : TokenKind
  span : Span
  deriving DecidableEq, Repr

/-- A lexer error (`LexerError`). -/
structure LexerError where
  text : List String
  kind : LexerErrorKind
  span : Span
  token_kind : Option TokenKind
  deriving DecidableEq, Repr

/-- One output of the lexer: `Result<Token, LexerError>` in lexer.rs. -/
inductive LexOut where
  | tok (t : Token)
  | err (e : LexerError)
  deriving DecidableEq, Repr

/-- The lexer state (`Lexer`): grapheme cursor, marked start, and source.
The grapheme iterator of the Rust struct is the suffix of `source` from
`index`; the byte cursors and the never-read `prev` field are omitted (see
the module comment). -/
structure Lexer where
  index : Nat
  mark : Nat
  source : List String
  deriving DecidableEq, Repr

/-- `Lexer::new`: cursor and mark at offset 0. -/
def Lexer.new (source : List String) : Lexer :=
  { index := 0, mark := 0, source := source }

/-- `Lexer::mark` (renamed: `mark` is the field): latch the current cursor. -/
def Lexer.setMark (l : Lexer) : Lexer :=
  { l with mark := l.index }

/-- `Lexer::peek`: the next grapheme without advancing. -/
def Lexer.peek (l : Lexer) : Option String :=
  l.source.get? l.index

/-- `Lexer::next`: advance one grapheme, returning it. -/
def Lexer.next (l : Lexer) : Option String × Lexer :=
  match l.source.get? l.index with
  | some g => (some g, { l with index := l.index + 1 })
  | none => (none, l)

/-- The state after `Lexer::next`, discarding the returned grapheme. -/
def Lexer.step (l : Lexer) : Lexer :=
  (Lexer.next l).2

/-- Grapheme-list prefix test: the comparison loop inside `Lexer::expect`. -/
def frontMatch : List String → List String → Bool
  | [], _ => true
  | _ :: _, [] => false
  | p :: ps, g :: gs => p == g && frontMatch ps gs

/-- `Lexer::expect`: if the next graphemes equal `pattern`, advance past
them and return true; otherwise leave the cursor untouched. -/
def Lexer.expect (l : Lexer) (pattern : List String) : Bool × Lexer :=
  if frontMatch pattern (l.source.drop l.index) then
    (true, { l with index := l.index + pattern.length })
  else
    (false, l)

/-- `Lexer::expect_one`: consume exactly one grapheme of `pattern` if the
next grapheme is one of them. -/
def Lexer.expectOne (l : Lexer) (pattern : List String) : Bool × Lexer :=
  match pattern with
  | [] => (false, l)
  | g :: gs =>
    match l.expect [g] with
    | (true, l1) => (true, l1)
    | (false, _) => l.expectOne gs

/-- `Lexer::take_while`, with fuel.  The Rust loop peeks, breaks when the
predicate fails, and otherwise only increments `count` - it never advances
the cursor, so when the predicate holds on the peeked grapheme the loop
body repeats on an unchanged state. -/
def takeWhileF : Nat → (String → Bool) → Lexer → Nat → Option (Nat × Lexer)
  | 0, _, _, _ => none
  | fuel + 1, pred, l, count =>
    match l.peek with
    | none => some (count, l)
    | some g =>
      if !pred g then some (count, l)
      else takeWhileF fuel pred l (count + 1)

/-- The grapheme slice of `source` covering `[a, b)`. -/
def sliceG (s : List String) (a b : Nat) : List String :=
  (s.drop a).take (b - a)

/-- `Lexer::text`: the covered slice between mark and cursor. -/
def Lexer.textSlice (l : Lexer) : List String :=
  sliceG l.source l.mark l.index

/-- `Lexer::span`: the interval `[mark, index)`. -/
def Lexer.spanNow (l : Lexer) : Span :=
  { start := l.mark, stop := l.index }

/-- `Lexer::extract`: build a token between mark and cursor. -/
def Lexer.extract (l : Lexer) (kind : TokenKind) : Option LexOut :=
  some (LexOut.tok { text := l.textSlice, kind := kind, span := l.spanNow })

/-- `Lexer::error`: build an error between mark and cursor. -/
def Lexer.mkError (l : Lexer) (kind : LexerErrorKind) (token_kind : Option TokenKind) :
    Option LexOut :=
  some (LexOut.err
    { text := l.textSlice, kind := kind, span := l.spanNow, token_kind := token_kind })

/-- `Lexer::lex_exact`: match a literal pattern and emit `kind`. -/
def Lexer.lexExact (l : Lexer) (pattern : List String) (kind : TokenKind) :
    Option LexOut × Lexer :=
  match l.expect pattern with
  | (true, l1) => (l1.extract kind, l1)
  | (false, l1) => (none, l1)

/-- The loop of `Lexer::lex_space`: consume a run of spaces and tabs,
remembering whether at least one was seen. -/
def spaceLoopF : Nat → Lexer → Bool → Option (Bool × Lexer)
  | 0, _, _ => none
  | fuel + 1, l, seen =>
    match l.peek with
    | none => some (seen, l)
    | some g =>
      if g == " " || g == "\t" then spaceLoopF fuel l.step true
      else some (seen, l)

/-- `Lexer::lex_space`. -/
def lexSpaceF (fuel : Nat) (l : Lexer) : Option (Option LexOut × Lexer) :=
  match spaceLoopF fuel l false with
  | none => none
  | some (true, l1) => some (l1.extract TokenKind.Space, l1)
  | some (false, l1) => some (none, l1)

/-- `Lexer::lex_newline`: a `\n` or a (single-grapheme) CRLF cluster. -/
def Lexer.lexNewline (l : Lexer) : Option LexOut × Lexer :=
  match l.lexExact ["\n"] TokenKind.NewLine with
  | (some r, l1) => (some r, l1)
  | (none, l1) =>
    match l1.lexExact ["\r\n"] TokenKind.NewLine with
    | (some r, l2) => (some r, l2)
    | (none, l2) => (none, l2)

/-- The block-comment loop of `Lexer::lex_comment`.  Each iteration either
consumes a `]]` (decrementing the depth) or a single grapheme; the depth is
never incremented anywhere in the loop. -/
def blockLoopF : Nat → Lexer → Nat → Option (Nat × Lexer)
  | 0, _, _ => none
  | fuel + 1, l, depth =>
    match l.peek with
    | none => some (depth, l)
    | some _ =>
      match l.expect ["]", "]"] with
      | (true, l1) =>
        if depth - 1 == 0 then some (depth - 1, l1)
        else blockLoopF fuel l1 (depth - 1)
      | (false, l1) =>
        if depth == 0 then some (depth, l1.step)
        else blockLoopF fuel l1.step depth

/-- The line-comment loop of `Lexer::lex_comment`: while a grapheme remains,
break on an upcoming newline; the body never advances the cursor. -/
def lineLoopF : Nat → Lexer → Option Lexer
  | 0, _ => none
  | fuel + 1, l =>
    match l.peek with
    | none => some l
    | some _ =>
      match (Lexer.lexNewline l).1 with
      | some (LexOut.tok _) => some l
      | _ => lineLoopF fuel l

/-- `Lexer::lex_comment`. -/
def lexCommentF (fuel : Nat) (l : Lexer) : Option (Option LexOut × Lexer) :=
  match l.expect ["#", "[", "["] with
  | (true, l1) =>
    match blockLoopF fuel l1 1 with
    | none => none
    | some (depth, l2) =>
      if depth == 0 then some (l2.extract TokenKind.CommentBlock, l2)
      else some (l2.mkError LexerErrorKind.Incomplete (some TokenKind.CommentBlock), l2)
  | (false, _) =>
    match l.expect ["#"] with
    | (true, l1) =>
      match lineLoopF fuel l1 with
      | none => none
      | some l2 => some (l2.extract TokenKind.CommentLine, l2)
    | (false, l1) => some (none, l1)

/-- The lowercase-name loop of `Lexer::lex_name`: consume alphanumerics,
recording invalidity when an uppercase letter is seen. -/
def lowerLoopF : Nat → Lexer → Bool → Option (Bool × Lexer)
  | 0, _, _ => none
  | fuel + 1, l, valid =>
    match l.peek with
    | none => some (valid, l)
    | some g =>
      if !is_alphanum g then some (valid, l)
      else lowerLoopF fuel l.step (valid && !is_upper g)

/-- The anonymous-name loop of `Lexer::lex_name`: consume alphanumerics,
recording invalidity when an alphabetic grapheme is seen. -/
def anonLoopF : Nat → Lexer → Bool → Option (Bool × Lexer)
  | 0, _, _ => none
  | fuel + 1, l, valid =>
    match l.peek with
    | none => some (valid, l)
    | some g =>
      if !is_alphanum g then some (valid, l)
      else anonLoopF fuel l.step (valid && !is_alpha g)

/-- The all-underscore tail of `Lexer::lex_name`: one underscore is a
`NameUnderscore` token, anything else is invalid. -/
def underscoreTail (count : Nat) (l : Lexer) : Option (Option LexOut × Lexer) :=
  if count == 1 then some (l.extract TokenKind.NameUnderscore, l)
  else some (l.mkError LexerErrorKind.Invalid (some TokenKind.NameUnderscore), l)

/-- `Lexer::lex_name`. -/
def lexNameF (fuel : Nat) (l : Lexer) : Option (Option LexOut × Lexer) :=
  match l.peek with
  | none => some (none, l)
  | some g0 =>
    if !is_alpha g0 then some (none, l)
    else
      match takeWhileF fuel (fun g => g == "_") l 0 with
      | none => none
      | some (count, l1) =>
        match l1.peek with
        | some g =>
          if is_lower g then
            match lowerLoopF fuel l1 true with
            | none => none
            | some (valid, l2) =>
              match l2.expectOne ["!", "?"] with
              | (_, l3) =>
                if valid then some (l3.extract TokenKind.NameLower, l3)
                else some (l3.mkError LexerErrorKind.Invalid (some TokenKind.NameLower), l3)
          else if is_upper g then
            match takeWhileF fuel is_alphanum l1 0 with
            | none => none
            | some (_, l2) =>
              match l2.expectOne ["!", "?"] with
              | (false, l3) => some (l3.extract TokenKind.NameUpper, l3)
              | (true, l3) =>
                some (l3.mkError LexerErrorKind.Invalid (some TokenKind.NameUpper), l3)
          else if is_digit g then
            match anonLoopF fuel l1 true with
            | none => none
            | some (valid, l2) =>
              match l2.expectOne ["!", "?"] with
              | (true, l3) =>
                some (l3.mkError LexerErrorKind.Invalid (some TokenKind.NameAnon), l3)
              | (false, l3) =>
                if valid then some (l3.extract TokenKind.NameAnon, l3)
                else some (l3.mkError LexerErrorKind.Invalid (some TokenKind.NameAnon), l3)
          else underscoreTail count l1
        | none => underscoreTail count l1

/-- The underscore loop of `Lexer::consume_number`: while the peeked
grapheme is an underscore, consume it and a further digit run. -/
def underscoreLoopF : Nat → (String → Bool) → Lexer → Nat → Option (Nat × Lexer)
  | 0, _, _, _ => none
  | fuel + 1, pred, l, count =>
    match l.peek with
    | some g =>
      if g == "_" then
        match takeWhileF fuel pred l.step (count + 1) with
        | none => none
        | some (c, l1) => underscoreLoopF fuel pred l1 c
      else some (count, l)
    | none => some (count, l)

/-- `Lexer::consume_number`: an initial predicate-matching grapheme, a
`take_while` run, and (when underscores are allowed) the underscore loop. -/
def consumeNumberF (fuel : Nat) (underscore : Bool) (pred : String → Bool) (l : Lexer) :
    Option (Nat × Lexer) :=
  match l.peek with
  | some g2 =>
    if !pred g2 then some (0, l)
    else
      match takeWhileF fuel pred l.step 1 with
      | none => none
      | some (c, l1) =>
        if underscore then underscoreLoopF fuel pred l1 c else some (c, l1)
  | none =>
    match takeWhileF fuel pred l 0 with
    | none => none
    | some (c, l1) =>
      if underscore then underscoreLoopF fuel pred l1 c else some (c, l1)

/-- The exponent part of `Lexer::lex_number`: on an `e`, the kind becomes
`Float`, an optional `-` is consumed, and a nonempty underscore-free digit
body is required. -/
def exponentPartF (fuel : Nat) (kind : TokenKind) (l : Lexer) :
    Option (Option LexOut × Lexer) :=
  match l.peek with
  | some g =>
    if g == "e" then
      match l.step.expect ["-"] with
      | (_, l1) =>
        match consumeNumberF fuel false is_digit l1 with
        | none => none
        | some (c, l2) =>
          if c == 0 then some (l2.mkError LexerErrorKind.Incomplete (some TokenKind.Float), l2)
          else some (l2.extract TokenKind.Float, l2)
    else some (l.extract kind, l)
  | none => some (l.extract kind, l)

/-- The decimal/float tail of `Lexer::lex_number` after the first digit:
a digit body, the fraction test (which peeks the `.` itself a second time
instead of the grapheme after it), and the exponent part. -/
def decimalPartF (fuel : Nat) (l : Lexer) : Option (Option LexOut × Lexer) :=
  match consumeNumberF fuel true is_digit l with
  | none => none
  | some (_, l1) =>
    match l1.peek with
    | some g0 =>
      if g0 == "." then
        match l1.peek with
        | some g =>
          if is_digit g then
            match consumeNumberF fuel true is_digit l1 with
            | none => none
            | some (_, l2) => exponentPartF fuel TokenKind.Float l2
          else exponentPartF fuel TokenKind.IntDec l1
        | none => exponentPartF fuel TokenKind.IntDec l1
      else exponentPartF fuel TokenKind.IntDec l1
    | none => exponentPartF fuel TokenKind.IntDec l1

/-- The radix branches of `Lexer::lex_number`. -/
def radixPartF (fuel : Nat) (pred : String → Bool) (kind : TokenKind) (l : Lexer) :
    Option (Option LexOut × Lexer) :=
  match consumeNumberF fuel true pred l.step with
  | none => none
  | some (c, l1) =>
    if c > 0 then some (l1.extract kind, l1)
    else some (l1.mkError LexerErrorKind.Incomplete (some kind), l1)

/-- `Lexer::lex_number`. -/
def lexNumberF (fuel : Nat) (l : Lexer) : Option (Option LexOut × Lexer) :=
  match l.peek with
  | none => some (none, l)
  | some g =>
    if !is_digit g then some (none, l)
    else
      if g == "0" && l.step.peek == some "b" then
        radixPartF fuel is_bin_digit TokenKind.IntBin l.step
      else if g == "0" && l.step.peek == some "o" then
        radixPartF fuel is_oct_digit TokenKind.IntOct l.step
      else if g == "0" && l.step.peek == some "x" then
        radixPartF fuel is_hex_digit TokenKind.IntHex l.step
      else decimalPartF fuel l.step

/-- The content loop of `Lexer::lex_string`.  The escape test requires the
peeked grapheme to be a quote and simultaneously `expect`s a backslash at
the same position, so it can never fire; otherwise the matching closer ends
the string and any other grapheme (newlines included) is consumed. -/
def stringLoopF : Nat → TokenKind → Lexer → Option (Bool × Lexer)
  | 0, _, _ => none
  | fuel + 1, kind, l =>
    match l.peek with
    | none => some (false, l)
    | some g =>
      match (if g == "\"" then l.expect ["\\", "\""] else (false, l)) with
      | (true, l1) => stringLoopF fuel kind l1
      | (false, l1) =>
        if kind == TokenKind.StringSmart || kind == TokenKind.StringMulti then
          match l1.expect ["\"", "\"", "\""] with
          | (true, l2) => some (true, l2)
          | (false, l2) => stringLoopF fuel kind l2.step
        else
          match l1.expect ["\""] with
          | (true, l2) => some (true, l2)
          | (false, l2) => stringLoopF fuel kind l2.step

/-- The epilogue of `Lexer::lex_string`: `Incomplete` when the closing
delimiter was never seen. -/
def stringFinish (fuel : Nat) (kind : TokenKind) (l : Lexer) :
    Option (Option LexOut × Lexer) :=
  match stringLoopF fuel kind l with
  | none => none
  | some (true, l1) => some (l1.extract kind, l1)
  | some (false, l1) => some (l1.mkError LexerErrorKind.Incomplete (some kind), l1)

/-- `Lexer::lex_string`: the three flavors, longest opener first. -/
def lexStringF (fuel : Nat) (l : Lexer) : Option (Option LexOut × Lexer) :=
  match l.expect ["@", "\"", "\"", "\""] with
  | (true, l1) => stringFinish fuel TokenKind.StringSmart l1
  | (false, _) =>
    match l.expect ["\"", "\"", "\""] with
    | (true, l1) => stringFinish fuel TokenKind.StringMulti l1
    | (false, _) =>
      match l.expect ["\""] with
      | (true, l1) => stringFinish fuel TokenKind.StringSingle l1
      | (false, l1) => some (none, l1)

/-- The operator dispatch table of `Lexer::lex_next`, in source order
(multi-grapheme operators before their prefixes).  Braces are written with
hex escapes. -/
def opTable : List (List String × TokenKind) :=
  [ (["&", "&"], TokenKind.AmpAmp), (["&"], TokenKind.Amp),
    (["@", "@"], TokenKind.AtAt), (["@", "\x7b"], TokenKind.AtBraceL),
    (["@"], TokenKind.At),
    (["!", "="], TokenKind.BangEq), (["!"], TokenKind.Bang),
    (["["], TokenKind.BracketL), (["]"], TokenKind.BracketR),
    (["\x7b"], TokenKind.BraceL), (["\x7d"], TokenKind.BraceR),
    (["\\"], TokenKind.BackSlash), (["^"], TokenKind.Caret),
    ([":", ":"], TokenKind.ColonColon), ([":"], TokenKind.Colon),
    ([","], TokenKind.Comma), (["."], TokenKind.Dot),
    (["=", "="], TokenKind.EqEq), (["="], TokenKind.Eq),
    ([">", "="], TokenKind.GtEq), ([">", ">"], TokenKind.GtGt),
    ([">"], TokenKind.Gt),
    (["<", "=", ">"], TokenKind.LtEqGt), (["<", "="], TokenKind.LtEq),
    (["<", "<"], TokenKind.LtLt), (["<"], TokenKind.Lt),
    (["-"], TokenKind.Minus),
    (["("], TokenKind.ParenL), ([")"], TokenKind.ParenR),
    (["%"], TokenKind.Percent),
    (["|", "|"], TokenKind.PipePipe), (["|"], TokenKind.Pipe),
    (["+"], TokenKind.Plus),
    (["?", "="], TokenKind.QuestionEq), (["?"], TokenKind.Question),
    ([";"], TokenKind.Semicolon),
    (["/", "/"], TokenKind.SlashSlash), (["/"], TokenKind.Slash),
    (["*", "*"], TokenKind.StarStar), (["*"], TokenKind.Star),
    (["~"], TokenKind.Tilde) ]

/-- Run the `lex_exact` chain of `Lexer::lex_next` over a dispatch table. -/
def lexOps (l : Lexer) : List (List String × TokenKind) → Option LexOut × Lexer
  | [] => (none, l)
  | (pat, k) :: rest =>
    match l.lexExact pat k with
    | (some r, l1) => (some r, l1)
    | (none, l1) => lexOps l1 rest

/-- The production chain of `Lexer::lex_next` before the unknown-sequence
fallthrough, in source order. -/
def lexProdsF (fuel : Nat) (l : Lexer) : Option (Option LexOut × Lexer) :=
  match lexSpaceF fuel l with
  | none => none
  | some (some r, l1) => some (some r, l1)
  | some (none, l1) =>
    match l1.lexNewline with
    | (some r, l2) => some (some r, l2)
    | (none, l2) =>
      match lexCommentF fuel l2 with
      | none => none
      | some (some r, l3) => some (some r, l3)
      | some (none, l3) =>
        match lexNameF fuel l3 with
        | none => none
        | some (some r, l4) => some (some r, l4)
        | some (none, l4) =>
          match lexNumberF fuel l4 with
          | none => none
          | some (some r, l5) => some (some r, l5)
          | some (none, l5) =>
            match lexStringF fuel l5 with
            | none => none
            | some (some r, l6) => some (some r, l6)
            | some (none, l6) =>
              match lexOps l6 opTable with
              | (some r, l7) => some (some r, l7)
              | (none, l7) => some (none, l7)

mutual

/-- `Lexer::lex_next`.  A result of `some (none, _)` is the end-of-stream
marker (Rust `None`); `none` is fuel exhaustion (the call never returns). -/
def lexNextF : Nat → Bool → Lexer → Option (Option LexOut × Lexer)
  | 0, _, _ => none
  | fuel + 1, recursive, l =>
    match l.peek with
    | none => some (none, l)
    | some _ =>
      let l0 := l.setMark
      match lexProdsF fuel l0 with
      | none => none
      | some (some r, l1) => some (some r, l1)
      | some (none, l1) =>
        if recursive then
          some (l1.step.mkError LexerErrorKind.UnknownSequence none, l1.step)
        else
          match coalesceF fuel l1 l1 with
          | none => none
          | some l2 => some (l2.mkError LexerErrorKind.UnknownSequence none, l2)

/-- The unknown-sequence coalescing loop of `Lexer::lex_next`: while the
cloned view keeps producing `UnknownSequence`, advance the real lexer by
one grapheme; return the advanced real lexer. -/
def coalesceF : Nat → Lexer → Lexer → Option Lexer
  | 0, _, _ => none
  | fuel + 1, cl, s =>
    match lexNextF fuel true cl with
    | none => none
    | some (some (LexOut.err e), cl1) =>
      if e.kind == LexerErrorKind.UnknownSequence then coalesceF fuel cl1 s.step
      else some s
    | some _ => some s

end

/-- Drain the lexer (the `Iterator` impl): collect outputs until the
end-of-stream marker.  `none` when any step exhausts its fuel. -/
def lexAllF : Nat → Lexer → Option (List LexOut)
  | 0, _ => none
  | fuel + 1, l =>
    match lexNextF fuel false l with
    | none => none
    | some (none, _) => some []
    | some (some out, l1) =>
      match lexAllF fuel l1 with
      | none => none
      | some outs => some (out :: outs)


/-- The text field of an output, token or error alike. -/
def outText : LexOut → List String
  | LexOut.tok t => t.text
  | LexOut.err e => e.text

/-- The span field of an output, token or error alike. -/
def outSpan : LexOut → Span
  | LexOut.tok t => t.span
  | LexOut.err e => e.span

/-- State evolution within one `lex_next` call: the source and the mark are
untouched, the cursor only moves forward, and it stays inside the source. -/
def Pres (a b : Lexer) : Prop :=
  b.source = a.source ∧ b.mark = a.mark ∧ a.index ≤ b.index ∧
    (a.index ≤ a.source.length → b.index ≤ a.source.length)

/-- What one production of `lex_next` guarantees when it returns: the state
evolves monotonically, a no-match leaves the state untouched, a produced
error is never `UnknownSequence`, and a produced output carries the text
and span between the (untouched) mark and the final cursor. -/
def ProdOk (l : Lexer) (r : Option LexOut) (l2 : Lexer) : Prop :=
  Pres l l2 ∧ (r = none → l2 = l) ∧
    (∀ e, r = some (LexOut.err e) → e.kind ≠ LexerErrorKind.UnknownSequence) ∧
    (∀ x, r = some x → outText x = l2.textSlice ∧ outSpan x = l2.spanNow)

/-- Whether two offsets delimit consecutive spans from `a` to `b`. -/
def spansChainTo : Nat → Nat → List LexOut → Prop
  | a, b, [] => a = b
  | a, b, o :: os => (outSpan o).start = a ∧ spansChainTo (outSpan o).stop b os

/-- Whether an output is an `UnknownSequence` error. -/
def isUnknown : LexOut → Bool
  | LexOut.err e => e.kind == LexerErrorKind.UnknownSequence
  | LexOut.tok _ => false

/-- Whether a `lex_next` result is not an `UnknownSequence` error (the exit
condition of the coalescing loop). -/
def NotUnkRes : Option LexOut × Lexer → Prop
  | (some (LexOut.err e), _) => e.kind ≠ LexerErrorKind.UnknownSequence
  | _ => True

end Kaki

namespace token

/-- The token-kind enumeration of src/compiler/token.rs (a different
vocabulary from the one the monolithic lexer uses: words are `Lower`,
`Upper`, `Under`, `Anon`, numbers are `Integer` and `Float`, and there are
no comment kinds and no `Semicolon` or `LtEqGt`). -/
inductive TokenKind where
  | Space | NewLine
  | Lower | Upper | Under | Anon
  | Integer | Float
  | StringSingle | StringMulti | StringSmart
  | Amp | AmpAmp | At | AtAt | AtBraceL | Bang | BangEq
  | BracketL | BracketR | BraceL | BraceR | BackSlash | Caret
  | Colon | ColonColon | Comma | Dot | Eq | EqEq
  | Gt | GtEq | GtGt | Lt | LtEq | LtLt
  | Minus | ParenL | ParenR | Percent | Pipe | PipePipe | Plus
  | Question | QuestionEq | Slash | SlashSlash | Star | StarStar | Tilde
  deriving DecidableEq, Repr

/-- `TokenKind::is_whitespace`. -/
def TokenKind.is_whitespace : TokenKind → Bool
  | TokenKind.Space | TokenKind.NewLine => true
  | _ => false

/-- `TokenKind::is_word`. -/
def TokenKind.is_word : TokenKind → Bool
  | TokenKind.Lower | TokenKind.Upper | TokenKind.Under | TokenKind.Anon => true
  | _ => false

/-- `TokenKind::is_op_punc`: note that the source includes `Space` and
`NewLine` in this predicate. -/
def TokenKind.is_op_punc : TokenKind → Bool
  | TokenKind.Space | TokenKind.NewLine | TokenKind.Amp | TokenKind.AmpAmp
  | TokenKind.At | TokenKind.AtAt | TokenKind.AtBraceL | TokenKind.Bang
  | TokenKind.BangEq | TokenKind.BracketL | TokenKind.BracketR | TokenKind.BraceL
  | TokenKind.BraceR | TokenKind.BackSlash | TokenKind.Caret | TokenKind.Colon
  | TokenKind.ColonColon | TokenKind.Comma | TokenKind.Dot | TokenKind.Eq
  | TokenKind.EqEq | TokenKind.Gt | TokenKind.GtEq | TokenKind.GtGt
  | TokenKind.Lt | TokenKind.LtEq | TokenKind.LtLt | TokenKind.Minus
  | TokenKind.ParenL | TokenKind.ParenR | TokenKind.Percent | TokenKind.Pipe
  | TokenKind.PipePipe | TokenKind.Plus | TokenKind.Question | TokenKind.QuestionEq
  | TokenKind.Slash | TokenKind.SlashSlash | TokenKind.Star | TokenKind.StarStar
  | TokenKind.Tilde => true
  | _ => false

/-- `TokenKind::is_boundary`. -/
def TokenKind.is_boundary (k : TokenKind) : Bool :=
  k.is_whitespace || k.is_op_punc

end token

namespace Kaki

theorem Pres.refl (a : Lexer) : Pres a a :=
  ⟨rfl, rfl, Nat.le_refl _, id⟩

theorem Pres.trans {a b c : Lexer} (h1 : Pres a b) (h2 : Pres b c) : Pres a c := by
  obtain ⟨s1, m1, i1, b1⟩ := h1
  obtain ⟨s2, m2, i2, b2⟩ := h2
  refine ⟨s2.trans s1, m2.trans m1, Nat.le_trans i1 i2, fun h => ?_⟩
  have hb := b1 h
  have hb2 := b2 (by rw [s1]; exact hb)
  rwa [s1] at hb2

theorem peek_some_lt {l : Lexer} {g : String} (h : l.peek = some g) :
    l.index < l.source.length := by
  by_contra hc
  rw [Lexer.peek, List.get?_eq_none.mpr (by omega)] at h
  exact Option.noConfusion h

theorem peek_none_ge {l : Lexer} (h : l.peek = none) :
    l.source.length ≤ l.index :=
  List.get?_eq_none.mp h

theorem step_pres (l : Lexer) : Pres l l.step := by
  cases h : l.source.get? l.index with
  | none =>
    simp only [Lexer.step, Lexer.next, h]
    exact Pres.refl l
  | some g =>
    simp only [Lexer.step, Lexer.next, h]
    refine ⟨rfl, rfl, Nat.le_succ _, fun _ => ?_⟩
    have := peek_some_lt (l := l) (g := g) h
    show l.index + 1 ≤ l.source.length
    omega

theorem step_source (l : Lexer) : l.step.source = l.source := (step_pres l).1

theorem step_of_peek {l : Lexer} {g : String} (h : l.peek = some g) :
    l.step = { l with index := l.index + 1 } := by
  unfold Lexer.step Lexer.next
  rw [Lexer.peek] at h
  rw [h]

theorem frontMatch_le : ∀ {p xs : List String}, frontMatch p xs = true → p.length ≤ xs.length := by
  intro p
  induction p with
  | nil => intro xs _; simp
  | cons a ps ih =>
    intro xs h
    cases xs with
    | nil => simp [frontMatch] at h
    | cons b gs =>
      simp only [frontMatch, Bool.and_eq_true] at h
      have := ih h.2
      simp only [List.length_cons]
      omega

theorem expect_pres (l : Lexer) (p : List String) : Pres l (l.expect p).2 := by
  by_cases hfm : frontMatch p (l.source.drop l.index) = true
  · simp only [Lexer.expect, hfm, if_true]
    refine ⟨rfl, rfl, Nat.le_add_right _ _, fun hb => ?_⟩
    have h2 := frontMatch_le hfm
    rw [List.length_drop] at h2
    show l.index + p.length ≤ l.source.length
    omega
  · simp only [Lexer.expect, hfm, if_false]
    exact Pres.refl l

theorem expect_false {l : Lexer} {p : List String}
    (h : (l.expect p).1 = false) : (l.expect p).2 = l := by
  by_cases hfm : frontMatch p (l.source.drop l.index) = true
  · simp [Lexer.expect, hfm] at h
  · simp [Lexer.expect, hfm]

theorem expectOne_pres (l : Lexer) (p : List String) : Pres l (l.expectOne p).2 := by
  induction p generalizing l with
  | nil => exact Pres.refl l
  | cons g gs ih =>
    unfold Lexer.expectOne
    cases he : l.expect [g] with
    | mk b l1 =>
      cases b with
      | true =>
        have := expect_pres l [g]
        rw [he] at this
        exact this
      | false => exact ih l

theorem takeWhileF_some : ∀ {f : Nat} {pred : String → Bool} {l : Lexer} {c n : Nat}
    {l2 : Lexer}, takeWhileF f pred l c = some (n, l2) → l2 = l := by
  intro f
  induction f with
  | zero => intro pred l c n l2 h; simp [takeWhileF] at h
  | succ f ih =>
    intro pred l c n l2 h
    unfold takeWhileF at h
    cases hp : l.peek with
    | none =>
      rw [hp] at h
      simp at h
      exact h.2.symm
    | some g =>
      rw [hp] at h
      by_cases hpr : pred g = true
      · simp only [hpr, Bool.not_true, Bool.false_eq_true, if_false] at h
        exact ih h
      · simp only [Bool.not_eq_true] at hpr
        simp only [hpr, Bool.not_false, if_true] at h
        simp at h
        exact h.2.symm

theorem spaceLoopF_some : ∀ {f : Nat} {l : Lexer} {b b2 : Bool} {l2 : Lexer},
    spaceLoopF f l b = some (b2, l2) →
    Pres l l2 ∧ (b = true → b2 = true) ∧ (b2 = false → l2 = l) := by
  intro f
  induction f with
  | zero => intro l b b2 l2 h; simp [spaceLoopF] at h
  | succ f ih =>
    intro l b b2 l2 h
    unfold spaceLoopF at h
    split at h
    · simp at h
      exact ⟨h.2 ▸ Pres.refl l, fun hb => h.1 ▸ hb, fun _ => h.2.symm⟩
    · split at h
      · have hrec := ih h
        refine ⟨(step_pres l).trans hrec.1, fun _ => hrec.2.1 rfl, fun hb => ?_⟩
        exact absurd (hrec.2.1 rfl) (by simp [hb])
      · simp at h
        exact ⟨h.2 ▸ Pres.refl l, fun hb => h.1 ▸ hb, fun _ => h.2.symm⟩

theorem lineLoopF_id : ∀ {f : Nat} {l l2 : Lexer}, lineLoopF f l = some l2 → l2 = l := by
  intro f
  induction f with
  | zero => intro l l2 h; simp [lineLoopF] at h
  | succ f ih =>
    intro l l2 h
    unfold lineLoopF at h
    split at h
    · simp at h; exact h.symm
    · split at h
      · simp at h; exact h.symm
      · exact ih h

theorem lowerLoopF_pres : ∀ {f : Nat} {l : Lexer} {v v2 : Bool} {l2 : Lexer},
    lowerLoopF f l v = some (v2, l2) → Pres l l2 := by
  intro f
  induction f with
  | zero => intro l v v2 l2 h; simp [lowerLoopF] at h
  | succ f ih =>
    intro l v v2 l2 h
    unfold lowerLoopF at h
    split at h
    · simp at h; exact h.2 ▸ Pres.refl l
    · split at h
      · simp at h; exact h.2 ▸ Pres.refl l
      · exact (step_pres l).trans (ih h)

theorem anonLoopF_pres : ∀ {f : Nat} {l : Lexer} {v v2 : Bool} {l2 : Lexer},
    anonLoopF f l v = some (v2, l2) → Pres l l2 := by
  intro f
  induction f with
  | zero => intro l v v2 l2 h; simp [anonLoopF] at h
  | succ f ih =>
    intro l v v2 l2 h
    unfold anonLoopF at h
    split at h
    · simp at h; exact h.2 ▸ Pres.refl l
    · split at h
      · simp at h; exact h.2 ▸ Pres.refl l
      · exact (step_pres l).trans (ih h)

theorem underscoreLoopF_pres : ∀ {f : Nat} {pred : String → Bool} {l : Lexer}
    {c c2 : Nat} {l2 : Lexer}, underscoreLoopF f pred l c = some (c2, l2) → Pres l l2 := by
  intro f
  induction f with
  | zero => intro pred l c c2 l2 h; simp [underscoreLoopF] at h
  | succ f ih =>
    intro pred l c c2 l2 h
    unfold underscoreLoopF at h
    split at h
    · split at h
      · split at h
        · simp at h
        · rename_i c1 l1 ht
          have h1 : l1 = l.step := takeWhileF_some ht
          subst h1
          exact (step_pres l).trans (ih h)
      · simp at h
        exact h.2 ▸ Pres.refl l
    · simp at h
      exact h.2 ▸ Pres.refl l
theorem blockLoopF_pres : ∀ {f : Nat} {l : Lexer} {d d2 : Nat} {l2 : Lexer},
    blockLoopF f l d = some (d2, l2) → Pres l l2 := by
  intro f
  induction f with
  | zero => intro l d d2 l2 h; simp [blockLoopF] at h
  | succ f ih =>
    intro l d d2 l2 h
    unfold blockLoopF at h
    split at h
    · simp at h
      exact h.2 ▸ Pres.refl l
    · split at h
      · rename_i l1 heq
        have hpres : Pres l l1 := by
          have := expect_pres l ["]", "]"]
          rw [heq] at this
          exact this
        split at h
        · simp at h
          exact h.2 ▸ hpres
        · exact hpres.trans (ih h)
      · rename_i l1 heq
        have hpres : Pres l l1 := by
          have := expect_pres l ["]", "]"]
          rw [heq] at this
          exact this
        split at h
        · simp at h
          exact h.2 ▸ hpres.trans (step_pres l1)
        · exact (hpres.trans (step_pres l1)).trans (ih h)

theorem consumeNumberF_pres {f : Nat} {underscore : Bool} {pred : String → Bool}
    {l : Lexer} {c : Nat} {l2 : Lexer}
    (h : consumeNumberF f underscore pred l = some (c, l2)) : Pres l l2 := by
  unfold consumeNumberF at h
  split at h
  · split at h
    · simp at h
      exact h.2 ▸ Pres.refl l
    · split at h
      · simp at h
      · rename_i c1 l1 ht
        have h1 : l1 = l.step := takeWhileF_some ht
        subst h1
        split at h
        · exact (step_pres l).trans (underscoreLoopF_pres h)
        · simp at h
          exact h.2 ▸ step_pres l
  · split at h
    · simp at h
    · rename_i c1 l1 ht
      have h1 : l1 = l := takeWhileF_some ht
      rw [h1] at h
      split at h
      · exact underscoreLoopF_pres h
      · simp at h
        exact h.2 ▸ Pres.refl l

theorem stringLoopF_pres : ∀ {f : Nat} {kind : TokenKind} {l : Lexer} {b : Bool}
    {l2 : Lexer}, stringLoopF f kind l = some (b, l2) → Pres l l2 := by
  intro f
  induction f with
  | zero => intro kind l b l2 h; simp [stringLoopF] at h
  | succ f ih =>
    intro kind l b l2 h
    unfold stringLoopF at h
    split at h
    · simp at h
      exact h.2 ▸ Pres.refl l
    · rename_i g hp
      split at h
      · rename_i l1 heq
        have hpres : Pres l l1 := by
          by_cases hg : (g == "\"") = true
          · rw [if_pos hg] at heq
            have := expect_pres l ["\\", "\""]
            rw [heq] at this
            exact this
          · rw [if_neg hg] at heq
            simp at heq
        exact hpres.trans (ih h)
      · rename_i l1 heq
        have hpres : Pres l l1 := by
          by_cases hg : (g == "\"") = true
          · rw [if_pos hg] at heq
            have := expect_pres l ["\\", "\""]
            rw [heq] at this
            exact this
          · rw [if_neg hg] at heq
            simp at heq
            exact heq ▸ Pres.refl l
        split at h
        · split at h
          · rename_i l3 heq3
            have hp3 : Pres l1 l3 := by
              have := expect_pres l1 ["\"", "\"", "\""]
              rw [heq3] at this
              exact this
            simp at h
            exact h.2 ▸ hpres.trans hp3
          · rename_i l3 heq3
            have hp3 : Pres l1 l3 := by
              have := expect_pres l1 ["\"", "\"", "\""]
              rw [heq3] at this
              exact this
            exact hpres.trans ((hp3.trans (step_pres l3)).trans (ih h))
        · split at h
          · rename_i l3 heq3
            have hp3 : Pres l1 l3 := by
              have := expect_pres l1 ["\""]
              rw [heq3] at this
              exact this
            simp at h
            exact h.2 ▸ hpres.trans hp3
          · rename_i l3 heq3
            have hp3 : Pres l1 l3 := by
              have := expect_pres l1 ["\""]
              rw [heq3] at this
              exact this
            exact hpres.trans ((hp3.trans (step_pres l3)).trans (ih h))

theorem prodOk_extract {l l2 : Lexer} (k : TokenKind) (h : Pres l l2) :
    ProdOk l (l2.extract k) l2 := by
  refine ⟨h, by simp [Lexer.extract], ?_, ?_⟩
  · intro e he
    simp [Lexer.extract] at he
  · intro x hx
    simp only [Lexer.extract, Option.some.injEq] at hx
    subst hx
    exact ⟨rfl, rfl⟩

theorem prodOk_mkError {l l2 : Lexer} (kind : LexerErrorKind) (tk : Option TokenKind)
    (h : Pres l l2) (hk : kind ≠ LexerErrorKind.UnknownSequence) :
    ProdOk l (l2.mkError kind tk) l2 := by
  refine ⟨h, by simp [Lexer.mkError], ?_, ?_⟩
  · intro e he
    simp only [Lexer.mkError, Option.some.injEq, LexOut.err.injEq] at he
    subst he
    exact hk
  · intro x hx
    simp only [Lexer.mkError, Option.some.injEq] at hx
    subst hx
    exact ⟨rfl, rfl⟩

theorem prodOk_none (l : Lexer) : ProdOk l none l :=
  ⟨Pres.refl l, fun _ => rfl, fun e he => by simp at he, fun x hx => by simp at hx⟩

theorem expect_eq_false {l : Lexer} {p : List String} {l1 : Lexer}
    (h : l.expect p = (false, l1)) : l1 = l := by
  have h1 : (l.expect p).1 = false := by rw [h]
  have h2 := expect_false h1
  rw [h] at h2
  exact h2

theorem expect_eq_pres {l : Lexer} {p : List String} {b : Bool} {l1 : Lexer}
    (h : l.expect p = (b, l1)) : Pres l l1 := by
  have := expect_pres l p
  rw [h] at this
  exact this

theorem lexExact_ok {l : Lexer} {p : List String} {k : TokenKind} {r : Option LexOut}
    {l2 : Lexer} (h : l.lexExact p k = (r, l2)) : ProdOk l r l2 := by
  unfold Lexer.lexExact at h
  split at h
  · rename_i l1 heq
    injection h with h1 h2
    subst h1
    subst h2
    exact prodOk_extract k (expect_eq_pres heq)
  · rename_i l1 heq
    injection h with h1 h2
    subst h1
    subst h2
    rw [expect_eq_false heq]
    exact prodOk_none l

theorem lexNewline_ok {l : Lexer} {r : Option LexOut} {l2 : Lexer}
    (h : l.lexNewline = (r, l2)) : ProdOk l r l2 := by
  unfold Lexer.lexNewline at h
  split at h
  · rename_i r1 l1 heq
    injection h with h1 h2
    subst h1
    subst h2
    exact lexExact_ok heq
  · rename_i l1 heq
    have hok := lexExact_ok heq
    have hid : l1 = l := hok.2.1 rfl
    subst hid
    split at h
    · rename_i r2 l2a heq2
      injection h with h1 h2
      subst h1
      subst h2
      exact lexExact_ok heq2
    · rename_i l2a heq2
      injection h with h1 h2
      subst h1
      subst h2
      exact lexExact_ok heq2

theorem lexOps_ok : ∀ {tbl : List (List String × TokenKind)} {l : Lexer}
    {r : Option LexOut} {l2 : Lexer}, lexOps l tbl = (r, l2) → ProdOk l r l2 := by
  intro tbl
  induction tbl with
  | nil =>
    intro l r l2 h
    injection h with h1 h2
    subst h1
    subst h2
    exact prodOk_none l
  | cons hd tl ih =>
    intro l r l2 h
    unfold lexOps at h
    split at h
    · rename_i r1 l1 heq
      injection h with h1 h2
      subst h1
      subst h2
      exact lexExact_ok heq
    · rename_i l1 heq
      have hok := lexExact_ok heq
      have hid : l1 = l := hok.2.1 rfl
      subst hid
      exact ih h

theorem lexSpaceF_ok {f : Nat} {l : Lexer} {r : Option LexOut} {l2 : Lexer}
    (h : lexSpaceF f l = some (r, l2)) : ProdOk l r l2 := by
  unfold lexSpaceF at h
  split at h
  · simp at h
  · rename_i l1 heq
    have hs := spaceLoopF_some heq
    simp at h
    obtain ⟨h1, h2⟩ := h
    subst h1
    subst h2
    exact prodOk_extract TokenKind.Space hs.1
  · rename_i l1 heq
    have hs := spaceLoopF_some heq
    have hid : l1 = l := hs.2.2 rfl
    rw [hid] at h
    simp at h
    obtain ⟨h1, h2⟩ := h
    subst h1
    rw [← h2]
    exact prodOk_none l

theorem prodOk_of_eq {l : Lexer} {A : Option LexOut} {la : Lexer} {r : Option LexOut}
    {l2 : Lexer} (h : (some (A, la) : Option (Option LexOut × Lexer)) = some (r, l2))
    (ho : ProdOk l A la) : ProdOk l r l2 := by
  simp only [Option.some.injEq, Prod.mk.injEq] at h
  obtain ⟨h1, h2⟩ := h
  subst h1
  rw [← h2]
  exact ho

theorem prodOk_compose {l l1 l2 : Lexer} {r : Option LexOut} (hp : Pres l l1)
    (ho : ProdOk l1 r l2) (hn : r = none → l1 = l) : ProdOk l r l2 :=
  ⟨hp.trans ho.1, fun hr => (ho.2.1 hr).trans (hn hr), ho.2.2.1, ho.2.2.2⟩

theorem lexCommentF_ok {f : Nat} {l : Lexer} {r : Option LexOut} {l2 : Lexer}
    (h : lexCommentF f l = some (r, l2)) : ProdOk l r l2 := by
  unfold lexCommentF at h
  split at h
  · rename_i l1 heq
    have hp1 : Pres l l1 := expect_eq_pres heq
    split at h
    · simp at h
    · rename_i d l2a hb
      have hp2 : Pres l1 l2a := blockLoopF_pres hb
      split at h
      · exact prodOk_of_eq h (prodOk_extract TokenKind.CommentBlock (hp1.trans hp2))
      · exact prodOk_of_eq h (prodOk_mkError _ _ (hp1.trans hp2) (by simp))
  · split at h
    · rename_i l1 heq2
      have hp1 : Pres l l1 := expect_eq_pres heq2
      split at h
      · simp at h
      · rename_i l2a hl
        have hid : l2a = l1 := lineLoopF_id hl
        rw [hid] at h
        exact prodOk_of_eq h (prodOk_extract TokenKind.CommentLine hp1)
    · rename_i l1 heq2
      have hid : l1 = l := expect_eq_false heq2
      rw [hid] at h
      exact prodOk_of_eq h (prodOk_none l)

theorem expectOne_eq_pres {l : Lexer} {p : List String} {b : Bool} {l1 : Lexer}
    (h : l.expectOne p = (b, l1)) : Pres l l1 := by
  have := expectOne_pres l p
  rw [h] at this
  exact this

theorem lexNameF_ok {f : Nat} {l : Lexer} {r : Option LexOut} {l2 : Lexer}
    (h : lexNameF f l = some (r, l2)) : ProdOk l r l2 := by
  unfold lexNameF at h
  split at h
  · exact prodOk_of_eq h (prodOk_none l)
  · rename_i g0 hp0
    split at h
    · exact prodOk_of_eq h (prodOk_none l)
    · split at h
      · simp at h
      · rename_i count l1 ht
        have hid1 : l1 = l := takeWhileF_some ht
        split at h
        · rename_i g hp1
          split at h
          · split at h
            · simp at h
            · rename_i valid l2a hlo
              have hp2 : Pres l l2a := by
                have := lowerLoopF_pres hlo
                rw [hid1] at this
                exact this
              split at h
              · rename_i b3 l3 heo
                have hp3 : Pres l2a l3 := expectOne_eq_pres heo
                split at h
                · exact prodOk_of_eq h (prodOk_extract TokenKind.NameLower (hp2.trans hp3))
                · exact prodOk_of_eq h (prodOk_mkError _ _ (hp2.trans hp3) (by simp))
          · split at h
            · split at h
              · simp at h
              · rename_i c2 l2a ht2
                have hid2 : l2a = l1 := takeWhileF_some ht2
                split at h
                · rename_i l3 heo
                  have hp3 : Pres l l3 := by
                    have := expectOne_eq_pres heo
                    rw [hid2, hid1] at this
                    exact this
                  exact prodOk_of_eq h (prodOk_extract TokenKind.NameUpper hp3)
                · rename_i l3 heo
                  have hp3 : Pres l l3 := by
                    have := expectOne_eq_pres heo
                    rw [hid2, hid1] at this
                    exact this
                  exact prodOk_of_eq h (prodOk_mkError _ _ hp3 (by simp))
            · split at h
              · split at h
                · simp at h
                · rename_i valid l2a han
                  have hp2 : Pres l l2a := by
                    have := anonLoopF_pres han
                    rw [hid1] at this
                    exact this
                  split at h
                  · rename_i l3 heo
                    have hp3 : Pres l2a l3 := expectOne_eq_pres heo
                    exact prodOk_of_eq h (prodOk_mkError _ _ (hp2.trans hp3) (by simp))
                  · rename_i l3 heo
                    have hp3 : Pres l2a l3 := expectOne_eq_pres heo
                    split at h
                    · exact prodOk_of_eq h (prodOk_extract TokenKind.NameAnon (hp2.trans hp3))
                    · exact prodOk_of_eq h (prodOk_mkError _ _ (hp2.trans hp3) (by simp))
              · rw [hid1] at h
                unfold underscoreTail at h
                split at h
                · exact prodOk_of_eq h (prodOk_extract TokenKind.NameUnderscore (Pres.refl l))
                · exact prodOk_of_eq h (prodOk_mkError _ _ (Pres.refl l) (by simp))
        · rw [hid1] at h
          unfold underscoreTail at h
          split at h
          · exact prodOk_of_eq h (prodOk_extract TokenKind.NameUnderscore (Pres.refl l))
          · exact prodOk_of_eq h (prodOk_mkError _ _ (Pres.refl l) (by simp))

theorem radixPartF_ok {f : Nat} {pred : String → Bool} {kind : TokenKind} {l : Lexer}
    {r : Option LexOut} {l2 : Lexer} (h : radixPartF f pred kind l = some (r, l2)) :
    ProdOk l r l2 ∧ r ≠ none := by
  unfold radixPartF at h
  split at h
  · simp at h
  · rename_i c l1 hc
    have hp : Pres l l1 := (step_pres l).trans (consumeNumberF_pres hc)
    have hr : r ≠ none := by
      split at h
      · simp at h
        obtain ⟨h1, h2⟩ := h
        rw [← h1]
        simp [Lexer.extract]
      · simp at h
        obtain ⟨h1, h2⟩ := h
        rw [← h1]
        simp [Lexer.mkError]
    split at h
    · exact ⟨prodOk_of_eq h (prodOk_extract kind hp), hr⟩
    · exact ⟨prodOk_of_eq h (prodOk_mkError _ _ hp (by simp)), hr⟩

theorem exponentPartF_ok {f : Nat} {kind : TokenKind} {l : Lexer}
    {r : Option LexOut} {l2 : Lexer} (h : exponentPartF f kind l = some (r, l2)) :
    ProdOk l r l2 ∧ r ≠ none := by
  have hextr : ∀ lx : Lexer, ∀ k : TokenKind,
      (some (lx.extract k, lx) : Option (Option LexOut × Lexer)) = some (r, l2) →
      Pres l lx → ProdOk l r l2 ∧ r ≠ none := by
    intro lx k hh hp
    have hr : r ≠ none := by
      simp at hh
      obtain ⟨h1, h2⟩ := hh
      rw [← h1]
      simp [Lexer.extract]
    exact ⟨prodOk_of_eq hh (prodOk_extract k hp), hr⟩
  unfold exponentPartF at h
  split at h
  · split at h
    · split at h
      · rename_i b1 l1 hex
        have hp1 : Pres l l1 := (step_pres l).trans (expect_eq_pres hex)
        split at h
        · simp at h
        · rename_i c l2a hc
          have hp2 : Pres l l2a := hp1.trans (consumeNumberF_pres hc)
          split at h
          · have hr : r ≠ none := by
              simp at h
              obtain ⟨h1, h2⟩ := h
              rw [← h1]
              simp [Lexer.mkError]
            exact ⟨prodOk_of_eq h (prodOk_mkError _ _ hp2 (by simp)), hr⟩
          · exact hextr l2a TokenKind.Float h hp2
    · exact hextr l kind h (Pres.refl l)
  · exact hextr l kind h (Pres.refl l)
theorem decimalPartF_ok {f : Nat} {l : Lexer} {r : Option LexOut} {l2 : Lexer}
    (h : decimalPartF f l = some (r, l2)) : ProdOk l r l2 ∧ r ≠ none := by
  unfold decimalPartF at h
  split at h
  · simp at h
  · rename_i c1 l1 hc1
    have hp1 : Pres l l1 := consumeNumberF_pres hc1
    split at h
    · split at h
      · split at h
        · rename_i g hpg
          split at h
          · split at h
            · simp at h
            · rename_i c2 l2a hc2
              have hp2 : Pres l l2a := hp1.trans (consumeNumberF_pres hc2)
              obtain ⟨ho, hne⟩ := exponentPartF_ok h
              exact ⟨prodOk_compose hp2 ho (fun hrr => absurd hrr hne), hne⟩
          · obtain ⟨ho, hne⟩ := exponentPartF_ok h
            exact ⟨prodOk_compose hp1 ho (fun hrr => absurd hrr hne), hne⟩
        · obtain ⟨ho, hne⟩ := exponentPartF_ok h
          exact ⟨prodOk_compose hp1 ho (fun hrr => absurd hrr hne), hne⟩
      · obtain ⟨ho, hne⟩ := exponentPartF_ok h
        exact ⟨prodOk_compose hp1 ho (fun hrr => absurd hrr hne), hne⟩
    · obtain ⟨ho, hne⟩ := exponentPartF_ok h
      exact ⟨prodOk_compose hp1 ho (fun hrr => absurd hrr hne), hne⟩
theorem lexNumberF_ok {f : Nat} {l : Lexer} {r : Option LexOut} {l2 : Lexer}
    (h : lexNumberF f l = some (r, l2)) : ProdOk l r l2 := by
  unfold lexNumberF at h
  split at h
  · exact prodOk_of_eq h (prodOk_none l)
  · rename_i g hp0
    split at h
    · exact prodOk_of_eq h (prodOk_none l)
    · split at h
      · obtain ⟨ho, hne⟩ := radixPartF_ok h
        exact prodOk_compose (step_pres l) ho (fun hrr => absurd hrr hne)
      · split at h
        · obtain ⟨ho, hne⟩ := radixPartF_ok h
          exact prodOk_compose (step_pres l) ho (fun hrr => absurd hrr hne)
        · split at h
          · obtain ⟨ho, hne⟩ := radixPartF_ok h
            exact prodOk_compose (step_pres l) ho (fun hrr => absurd hrr hne)
          · obtain ⟨ho, hne⟩ := decimalPartF_ok h
            exact prodOk_compose (step_pres l) ho (fun hrr => absurd hrr hne)

theorem stringFinish_ok {f : Nat} {kind : TokenKind} {l : Lexer}
    {r : Option LexOut} {l2 : Lexer} (h : stringFinish f kind l = some (r, l2)) :
    ProdOk l r l2 ∧ r ≠ none := by
  unfold stringFinish at h
  split at h
  · simp at h
  · rename_i l1 hs
    have hp := stringLoopF_pres hs
    have hr : r ≠ none := by
      simp at h
      obtain ⟨h1, h2⟩ := h
      rw [← h1]
      simp [Lexer.extract]
    exact ⟨prodOk_of_eq h (prodOk_extract kind hp), hr⟩
  · rename_i l1 hs
    have hp := stringLoopF_pres hs
    have hr : r ≠ none := by
      simp at h
      obtain ⟨h1, h2⟩ := h
      rw [← h1]
      simp [Lexer.mkError]
    exact ⟨prodOk_of_eq h (prodOk_mkError _ _ hp (by simp)), hr⟩

theorem lexStringF_ok {f : Nat} {l : Lexer} {r : Option LexOut} {l2 : Lexer}
    (h : lexStringF f l = some (r, l2)) : ProdOk l r l2 := by
  unfold lexStringF at h
  split at h
  · rename_i l1 he1
    obtain ⟨ho, hne⟩ := stringFinish_ok h
    exact prodOk_compose (expect_eq_pres he1) ho (fun hrr => absurd hrr hne)
  · split at h
    · rename_i l1 he2
      obtain ⟨ho, hne⟩ := stringFinish_ok h
      exact prodOk_compose (expect_eq_pres he2) ho (fun hrr => absurd hrr hne)
    · split at h
      · rename_i l1 he3
        obtain ⟨ho, hne⟩ := stringFinish_ok h
        exact prodOk_compose (expect_eq_pres he3) ho (fun hrr => absurd hrr hne)
      · rename_i l1 he3
        have hid : l1 = l := expect_eq_false he3
        rw [hid] at h
        exact prodOk_of_eq h (prodOk_none l)

theorem lexProdsF_ok {f : Nat} {l : Lexer} {r : Option LexOut} {l2 : Lexer}
    (h : lexProdsF f l = some (r, l2)) : ProdOk l r l2 := by
  unfold lexProdsF at h
  split at h
  · simp at h
  · rename_i r1 l1 hsp
    exact prodOk_of_eq h (lexSpaceF_ok hsp)
  · rename_i l1 hsp
    have hid1 : l1 = l := (lexSpaceF_ok hsp).2.1 rfl
    rw [hid1] at h
    split at h
    · rename_i r2 l2a hnl
      exact prodOk_of_eq h (lexNewline_ok hnl)
    · rename_i l2a hnl
      have hid2 : l2a = l := (lexNewline_ok hnl).2.1 rfl
      rw [hid2] at h
      split at h
      · simp at h
      · rename_i r3 l3a hcm
        exact prodOk_of_eq h (lexCommentF_ok hcm)
      · rename_i l3a hcm
        have hid3 : l3a = l := (lexCommentF_ok hcm).2.1 rfl
        rw [hid3] at h
        split at h
        · simp at h
        · rename_i r4 l4a hnm
          exact prodOk_of_eq h (lexNameF_ok hnm)
        · rename_i l4a hnm
          have hid4 : l4a = l := (lexNameF_ok hnm).2.1 rfl
          rw [hid4] at h
          split at h
          · simp at h
          · rename_i r5 l5a hnum
            exact prodOk_of_eq h (lexNumberF_ok hnum)
          · rename_i l5a hnum
            have hid5 : l5a = l := (lexNumberF_ok hnum).2.1 rfl
            rw [hid5] at h
            split at h
            · simp at h
            · rename_i r6 l6a hst
              exact prodOk_of_eq h (lexStringF_ok hst)
            · rename_i l6a hst
              have hid6 : l6a = l := (lexStringF_ok hst).2.1 rfl
              rw [hid6] at h
              split at h
              · rename_i r7 l7a hop
                exact prodOk_of_eq h (lexOps_ok hop)
              · rename_i l7a hop
                have hid7 : l7a = l := (lexOps_ok hop).2.1 rfl
                rw [hid7] at h
                exact prodOk_of_eq h (prodOk_none l)

theorem coalesceF_pres : ∀ {f : Nat} {cl s s2 : Lexer}, coalesceF f cl s = some s2 →
    Pres s s2 := by
  intro f
  induction f with
  | zero => intro cl s s2 h; simp [coalesceF] at h
  | succ f ih =>
    intro cl s s2 h
    unfold coalesceF at h
    split at h
    · simp at h
    · split at h
      · exact (step_pres s).trans (ih h)
      · simp at h
        exact h ▸ Pres.refl s
    · simp at h
      exact h ▸ Pres.refl s

theorem setMark_source (l : Lexer) : (Lexer.setMark l).source = l.source := rfl

theorem sliceG_append {s : List String} {a b c : Nat} (hab : a ≤ b) (hbc : b ≤ c) :
    sliceG s a b ++ sliceG s b c = sliceG s a c := by
  unfold sliceG
  have hdrop : s.drop b = (s.drop a).drop (b - a) := by
    rw [List.drop_drop]
    congr 1
    omega
  rw [hdrop, ← List.take_add]
  congr 1
  omega

theorem sliceG_full (s : List String) : sliceG s 0 s.length = s := by
  simp [sliceG]

theorem sliceG_nil {s : List String} {a : Nat} : sliceG s a a = [] := by
  simp [sliceG]

theorem lexNextF_step : ∀ {f : Nat} {l : Lexer} {R : Option LexOut} {l2 : Lexer},
    lexNextF f false l = some (R, l2) →
    l2.source = l.source ∧ l.index ≤ l2.index ∧
    (l.index ≤ l.source.length → l2.index ≤ l.source.length) ∧
    (R = none → l2 = l ∧ l.source.length ≤ l.index) ∧
    (∀ x, R = some x → outSpan x = { start := l.index, stop := l2.index } ∧
      outText x = sliceG l.source l.index l2.index) := by
  intro f
  cases f with
  | zero => intro l R l2 h; simp [lexNextF] at h
  | succ f =>
    intro l R l2 h
    unfold lexNextF at h
    split at h
    · rename_i hp
      simp at h
      obtain ⟨h1, h2⟩ := h
      subst h1
      refine ⟨by rw [h2], by rw [h2], by rw [h2]; exact id, fun _ => ⟨h2.symm, peek_none_ge hp⟩,
        fun x hx => by simp at hx⟩
    · rename_i g hp
      simp only [Bool.false_eq_true, if_false] at h
      split at h
      · simp at h
      · rename_i r1 l1 hps
        have hok := lexProdsF_ok hps
        simp at h
        obtain ⟨h1, h2⟩ := h
        subst h1
        obtain ⟨⟨hs, hm, hi, hb⟩, _, _, hout⟩ := hok
        refine ⟨by rw [← h2]; exact hs, by rw [← h2]; exact hi, by rw [← h2]; exact hb,
          by simp, fun x hx => ?_⟩
        rw [Option.some.injEq] at hx
        rw [← hx]
        obtain ⟨ht, hsp⟩ := hout r1 rfl
        rw [← h2]
        constructor
        · rw [hsp]
          unfold Lexer.spanNow
          rw [hm]
          rfl
        · rw [ht]
          unfold Lexer.textSlice
          rw [hs, hm]
          rfl
      · rename_i l1 hps
        have hok := lexProdsF_ok hps
        have hid : l1 = l.setMark := hok.2.1 rfl
        rw [hid] at h
        split at h
        · simp at h
        · rename_i l2b hco
          have hpre : Pres (l.setMark) l2b := coalesceF_pres hco
          simp at h
          obtain ⟨h1, h2⟩ := h
          subst h1
          obtain ⟨hs, hm, hi, hb⟩ := hpre
          refine ⟨by rw [← h2]; exact hs, by rw [← h2]; exact hi, by rw [← h2]; exact hb,
            by simp [Lexer.mkError], fun x hx => ?_⟩
          unfold Lexer.mkError at hx
          rw [Option.some.injEq] at hx
          rw [← hx, ← h2]
          constructor
          · simp only [outSpan]
            unfold Lexer.spanNow
            rw [hm]
            rfl
          · simp only [outText]
            unfold Lexer.textSlice
            rw [hs, hm]
            rfl

theorem lexAllF_cov : ∀ {f : Nat} {l : Lexer} {outs : List LexOut},
    lexAllF f l = some outs → l.index ≤ l.source.length →
    (outs.map outText).flatten = sliceG l.source l.index l.source.length ∧
    spansChainTo l.index l.source.length outs := by
  intro f
  induction f with
  | zero => intro l outs h hle; simp [lexAllF] at h
  | succ f ih =>
    intro l outs h hle
    unfold lexAllF at h
    split at h
    · simp at h
    · rename_i l1 hx
      simp at h
      subst h
      have hstep := lexNextF_step hx
      obtain ⟨hl, hlen⟩ := hstep.2.2.2.1 rfl
      have hidx : l.index = l.source.length := Nat.le_antisymm hle hlen
      rw [← hidx]
      exact ⟨by simp [sliceG_nil], rfl⟩
    · rename_i out l1 hx
      split at h
      · simp at h
      · rename_i outs1 hrec
        simp at h
        subst h
        have hstep := lexNextF_step hx
        obtain ⟨hs, hi, hb, hnone, hout⟩ := hstep
        obtain ⟨hsp, ht⟩ := hout out rfl
        have hle1 : l1.index ≤ l1.source.length := by
          rw [hs]
          exact hb hle
        have hihr := ih hrec hle1
        constructor
        · simp only [List.map_cons, List.flatten_cons]
          rw [ht, hihr.1, hs]
          exact sliceG_append hi (hb hle)
        · refine ⟨by rw [hsp], ?_⟩
          rw [hsp]
          have hch := hihr.2
          rw [hs] at hch
          exact hch

theorem takeWhileF_mono : ∀ {f : Nat} {pred : String → Bool} {l : Lexer} {c : Nat}
    {x : Nat × Lexer}, takeWhileF f pred l c = some x →
    takeWhileF (f + 1) pred l c = some x := by
  intro f
  induction f with
  | zero => intro pred l c x h; simp [takeWhileF] at h
  | succ f ih =>
    intro pred l c x h
    unfold takeWhileF at h ⊢
    cases hp : l.peek with
    | none => simp only [hp] at h ⊢; exact h
    | some g =>
      simp only [hp] at h ⊢
      by_cases hpr : pred g = true
      · simp only [hpr, Bool.not_true, Bool.false_eq_true, if_false] at h ⊢
        exact ih h
      · rw [Bool.not_eq_true] at hpr
        simp only [hpr, Bool.not_false, if_true] at h ⊢
        exact h

theorem spaceLoopF_mono : ∀ {f : Nat} {l : Lexer} {b : Bool} {x : Bool × Lexer},
    spaceLoopF f l b = some x → spaceLoopF (f + 1) l b = some x := by
  intro f
  induction f with
  | zero => intro l b x h; simp [spaceLoopF] at h
  | succ f ih =>
    intro l b x h
    unfold spaceLoopF at h ⊢
    cases hp : l.peek with
    | none => simp only [hp] at h ⊢; exact h
    | some g =>
      simp only [hp] at h ⊢
      by_cases hg : (g == " " || g == "\t") = true
      · simp only [hg, if_true] at h ⊢
        exact ih h
      · rw [Bool.not_eq_true] at hg
        simp only [hg, Bool.false_eq_true, if_false] at h ⊢
        exact h

theorem lineLoopF_mono : ∀ {f : Nat} {l : Lexer} {x : Lexer},
    lineLoopF f l = some x → lineLoopF (f + 1) l = some x := by
  intro f
  induction f with
  | zero => intro l x h; simp [lineLoopF] at h
  | succ f ih =>
    intro l x h
    unfold lineLoopF at h ⊢
    cases hp : l.peek with
    | none => simp only [hp] at h ⊢; exact h
    | some g =>
      simp only [hp] at h ⊢
      cases hn : (Lexer.lexNewline l).1 with
      | none =>
        simp only [hn] at h ⊢
        exact ih h
      | some o =>
        cases o with
        | tok t => simp only [hn] at h ⊢; exact h
        | err e => simp only [hn] at h ⊢; exact ih h

theorem blockLoopF_mono : ∀ {f : Nat} {l : Lexer} {d : Nat} {x : Nat × Lexer},
    blockLoopF f l d = some x → blockLoopF (f + 1) l d = some x := by
  intro f
  induction f with
  | zero => intro l d x h; simp [blockLoopF] at h
  | succ f ih =>
    intro l d x h
    unfold blockLoopF at h ⊢
    cases hp : l.peek with
    | none => simp only [hp] at h ⊢; exact h
    | some g =>
      simp only [hp] at h ⊢
      cases he : l.expect ["]", "]"] with
      | mk b l1 =>
        simp only [he] at h ⊢
        cases b with
        | true =>
          by_cases hd : (d - 1 == 0) = true
          · simp only [hd, if_true] at h ⊢
            exact h
          · rw [Bool.not_eq_true] at hd
            simp only [hd, Bool.false_eq_true, if_false] at h ⊢
            exact ih h
        | false =>
          by_cases hd : (d == 0) = true
          · simp only [hd, if_true] at h ⊢
            exact h
          · rw [Bool.not_eq_true] at hd
            simp only [hd, Bool.false_eq_true, if_false] at h ⊢
            exact ih h

theorem lowerLoopF_mono : ∀ {f : Nat} {l : Lexer} {v : Bool} {x : Bool × Lexer},
    lowerLoopF f l v = some x → lowerLoopF (f + 1) l v = some x := by
  intro f
  induction f with
  | zero => intro l v x h; simp [lowerLoopF] at h
  | succ f ih =>
    intro l v x h
    unfold lowerLoopF at h ⊢
    cases hp : l.peek with
    | none => simp only [hp] at h ⊢; exact h
    | some g =>
      simp only [hp] at h ⊢
      by_cases hg : is_alphanum g = true
      · simp only [hg, Bool.not_true, Bool.false_eq_true, if_false] at h ⊢
        exact ih h
      · rw [Bool.not_eq_true] at hg
        simp only [hg, Bool.not_false, if_true] at h ⊢
        exact h

theorem anonLoopF_mono : ∀ {f : Nat} {l : Lexer} {v : Bool} {x : Bool × Lexer},
    anonLoopF f l v = some x → anonLoopF (f + 1) l v = some x := by
  intro f
  induction f with
  | zero => intro l v x h; simp [anonLoopF] at h
  | succ f ih =>
    intro l v x h
    unfold anonLoopF at h ⊢
    cases hp : l.peek with
    | none => simp only [hp] at h ⊢; exact h
    | some g =>
      simp only [hp] at h ⊢
      by_cases hg : is_alphanum g = true
      · simp only [hg, Bool.not_true, Bool.false_eq_true, if_false] at h ⊢
        exact ih h
      · rw [Bool.not_eq_true] at hg
        simp only [hg, Bool.not_false, if_true] at h ⊢
        exact h

theorem underscoreLoopF_mono : ∀ {f : Nat} {pred : String → Bool} {l : Lexer} {c : Nat}
    {x : Nat × Lexer}, underscoreLoopF f pred l c = some x →
    underscoreLoopF (f + 1) pred l c = some x := by
  intro f
  induction f with
  | zero => intro pred l c x h; simp [underscoreLoopF] at h
  | succ f ih =>
    intro pred l c x h
    unfold underscoreLoopF at h ⊢
    cases hp : l.peek with
    | none => simp only [hp] at h ⊢; exact h
    | some g =>
      simp only [hp] at h ⊢
      by_cases hg : (g == "_") = true
      · simp only [hg, if_true] at h ⊢
        cases ht : takeWhileF f pred l.step (c + 1) with
        | none =>
          simp only [ht] at h
          exact Option.noConfusion h
        | some y =>
          simp only [ht] at h
          simp only [takeWhileF_mono ht]
          exact ih h
      · rw [Bool.not_eq_true] at hg
        simp only [hg, Bool.false_eq_true, if_false] at h ⊢
        exact h
theorem stringLoopF_mono : ∀ {f : Nat} {kind : TokenKind} {l : Lexer} {x : Bool × Lexer},
    stringLoopF f kind l = some x → stringLoopF (f + 1) kind l = some x := by
  intro f
  induction f with
  | zero => intro kind l x h; simp [stringLoopF] at h
  | succ f ih =>
    intro kind l x h
    unfold stringLoopF at h ⊢
    cases hp : l.peek with
    | none => simp only [hp] at h ⊢; exact h
    | some g =>
      simp only [hp] at h ⊢
      cases hesc : (if g == "\"" then l.expect ["\\", "\""] else (false, l)) with
      | mk be l0 =>
        simp only [hesc] at h ⊢
        cases be with
        | true => exact ih h
        | false =>
          by_cases hk : (kind == TokenKind.StringSmart || kind == TokenKind.StringMulti) = true
          · simp only [hk, if_true] at h ⊢
            cases hcl : l0.expect ["\"", "\"", "\""] with
            | mk bc l1 =>
              simp only [hcl] at h ⊢
              cases bc with
              | true => exact h
              | false => exact ih h
          · rw [Bool.not_eq_true] at hk
            simp only [hk, Bool.false_eq_true, if_false] at h ⊢
            cases hcl : l0.expect ["\""] with
            | mk bc l1 =>
              simp only [hcl] at h ⊢
              cases bc with
              | true => exact h
              | false => exact ih h

theorem consumeNumberF_mono {f : Nat} {u : Bool} {pred : String → Bool} {l : Lexer}
    {x : Nat × Lexer} (h : consumeNumberF f u pred l = some x) :
    consumeNumberF (f + 1) u pred l = some x := by
  unfold consumeNumberF at h ⊢
  cases hp : l.peek with
  | some g2 =>
    simp only [hp] at h ⊢
    by_cases hpr : (!pred g2) = true
    · rw [if_pos hpr] at h ⊢
      exact h
    · rw [if_neg hpr] at h ⊢
      cases ht : takeWhileF f pred l.step 1 with
      | none =>
        simp only [ht] at h
        exact Option.noConfusion h
      | some y =>
        obtain ⟨c1, l1⟩ := y
        simp only [ht] at h
        simp only [takeWhileF_mono ht]
        cases u with
        | true => exact underscoreLoopF_mono h
        | false => exact h
  | none =>
    simp only [hp] at h ⊢
    cases ht : takeWhileF f pred l 0 with
    | none =>
      simp only [ht] at h
      exact Option.noConfusion h
    | some y =>
      obtain ⟨c1, l1⟩ := y
      simp only [ht] at h
      simp only [takeWhileF_mono ht]
      cases u with
      | true => exact underscoreLoopF_mono h
      | false => exact h

theorem lexSpaceF_mono {f : Nat} {l : Lexer} {x : Option LexOut × Lexer}
    (h : lexSpaceF f l = some x) : lexSpaceF (f + 1) l = some x := by
  unfold lexSpaceF at h ⊢
  cases hs : spaceLoopF f l false with
  | none =>
    simp only [hs] at h
    exact Option.noConfusion h
  | some y =>
    obtain ⟨b, l1⟩ := y
    simp only [hs] at h
    simp only [spaceLoopF_mono hs]
    cases b with
    | true => exact h
    | false => exact h

theorem lexCommentF_mono {f : Nat} {l : Lexer} {x : Option LexOut × Lexer}
    (h : lexCommentF f l = some x) : lexCommentF (f + 1) l = some x := by
  unfold lexCommentF at h ⊢
  cases he1 : l.expect ["#", "[", "["] with
  | mk b1 l1 =>
    simp only [he1] at h ⊢
    cases b1 with
    | true =>
      cases hb : blockLoopF f l1 1 with
      | none =>
        simp only [hb] at h
        exact Option.noConfusion h
      | some y =>
        obtain ⟨d, l2a⟩ := y
        simp only [hb] at h
        simp only [blockLoopF_mono hb]
        exact h
    | false =>
      cases he2 : l.expect ["#"] with
      | mk b2 l1b =>
        simp only [he2] at h ⊢
        cases b2 with
        | true =>
          cases hl : lineLoopF f l1b with
          | none =>
            simp only [hl] at h
            exact Option.noConfusion h
          | some l2a =>
            simp only [hl] at h
            simp only [lineLoopF_mono hl]
            exact h
        | false => exact h

theorem lexNameF_mono {f : Nat} {l : Lexer} {x : Option LexOut × Lexer}
    (h : lexNameF f l = some x) : lexNameF (f + 1) l = some x := by
  unfold lexNameF at h ⊢
  cases hp : l.peek with
  | none => simp only [hp] at h ⊢; exact h
  | some g0 =>
    simp only [hp] at h ⊢
    by_cases ha : (!is_alpha g0) = true
    · rw [if_pos ha] at h ⊢
      exact h
    · rw [if_neg ha] at h ⊢
      cases ht : takeWhileF f (fun g => g == "_") l 0 with
      | none =>
        simp only [ht] at h
        exact Option.noConfusion h
      | some y =>
        obtain ⟨count, l1⟩ := y
        simp only [ht] at h
        simp only [takeWhileF_mono ht]
        cases hp1 : l1.peek with
        | none => simp only [hp1] at h ⊢; exact h
        | some g =>
          simp only [hp1] at h ⊢
          by_cases hlo : is_lower g = true
          · rw [if_pos hlo] at h ⊢
            cases hll : lowerLoopF f l1 true with
            | none =>
              simp only [hll] at h
              exact Option.noConfusion h
            | some y2 =>
              obtain ⟨valid, l2a⟩ := y2
              simp only [hll] at h
              simp only [lowerLoopF_mono hll]
              exact h
          · rw [if_neg hlo] at h ⊢
            by_cases hup : is_upper g = true
            · rw [if_pos hup] at h ⊢
              cases ht2 : takeWhileF f is_alphanum l1 0 with
              | none =>
                simp only [ht2] at h
                exact Option.noConfusion h
              | some y2 =>
                obtain ⟨c2, l2a⟩ := y2
                simp only [ht2] at h
                simp only [takeWhileF_mono ht2]
                exact h
            · rw [if_neg hup] at h ⊢
              by_cases hdg : is_digit g = true
              · rw [if_pos hdg] at h ⊢
                cases han : anonLoopF f l1 true with
                | none =>
                  simp only [han] at h
                  exact Option.noConfusion h
                | some y2 =>
                  obtain ⟨valid, l2a⟩ := y2
                  simp only [han] at h
                  simp only [anonLoopF_mono han]
                  exact h
              · rw [if_neg hdg] at h ⊢
                exact h

theorem radixPartF_mono {f : Nat} {pred : String → Bool} {kind : TokenKind} {l : Lexer}
    {x : Option LexOut × Lexer} (h : radixPartF f pred kind l = some x) :
    radixPartF (f + 1) pred kind l = some x := by
  unfold radixPartF at h ⊢
  cases hc : consumeNumberF f true pred l.step with
  | none =>
    simp only [hc] at h
    exact Option.noConfusion h
  | some y =>
    obtain ⟨c, l1⟩ := y
    simp only [hc] at h
    simp only [consumeNumberF_mono hc]
    exact h

theorem exponentPartF_mono {f : Nat} {kind : TokenKind} {l : Lexer}
    {x : Option LexOut × Lexer} (h : exponentPartF f kind l = some x) :
    exponentPartF (f + 1) kind l = some x := by
  unfold exponentPartF at h ⊢
  cases hp : l.peek with
  | none => simp only [hp] at h ⊢; exact h
  | some g =>
    simp only [hp] at h ⊢
    by_cases hg : (g == "e") = true
    · rw [if_pos hg] at h ⊢
      cases hex : l.step.expect ["-"] with
      | mk b1 l1 =>
        simp only [hex] at h ⊢
        cases hc : consumeNumberF f false is_digit l1 with
        | none =>
          simp only [hc] at h
          exact Option.noConfusion h
        | some y =>
          obtain ⟨c, l2a⟩ := y
          simp only [hc] at h
          simp only [consumeNumberF_mono hc]
          exact h
    · rw [if_neg hg] at h ⊢
      exact h

theorem decimalPartF_mono {f : Nat} {l : Lexer} {x : Option LexOut × Lexer}
    (h : decimalPartF f l = some x) : decimalPartF (f + 1) l = some x := by
  unfold decimalPartF at h ⊢
  cases hc1 : consumeNumberF f true is_digit l with
  | none =>
    simp only [hc1] at h
    exact Option.noConfusion h
  | some y =>
    obtain ⟨c1, l1⟩ := y
    simp only [hc1] at h
    simp only [consumeNumberF_mono hc1]
    cases hp : l1.peek with
    | none =>
      simp only [hp] at h ⊢
      exact exponentPartF_mono h
    | some g0 =>
      simp only [hp] at h ⊢
      by_cases hg0 : (g0 == ".") = true
      · rw [if_pos hg0] at h ⊢
        by_cases hdg : is_digit g0 = true
        · rw [if_pos hdg] at h ⊢
          cases hc2 : consumeNumberF f true is_digit l1 with
          | none =>
            simp only [hc2] at h
            exact Option.noConfusion h
          | some y2 =>
            obtain ⟨c2, l2a⟩ := y2
            simp only [hc2] at h
            simp only [consumeNumberF_mono hc2]
            exact exponentPartF_mono h
        · rw [if_neg hdg] at h ⊢
          exact exponentPartF_mono h
      · rw [if_neg hg0] at h ⊢
        exact exponentPartF_mono h

theorem lexNumberF_mono {f : Nat} {l : Lexer} {x : Option LexOut × Lexer}
    (h : lexNumberF f l = some x) : lexNumberF (f + 1) l = some x := by
  unfold lexNumberF at h ⊢
  cases hp : l.peek with
  | none => simp only [hp] at h ⊢; exact h
  | some g =>
    simp only [hp] at h ⊢
    by_cases hd : (!is_digit g) = true
    · rw [if_pos hd] at h ⊢
      exact h
    · rw [if_neg hd] at h ⊢
      by_cases hb : (g == "0" && l.step.peek == some "b") = true
      · rw [if_pos hb] at h ⊢
        exact radixPartF_mono h
      · rw [if_neg hb] at h ⊢
        by_cases ho : (g == "0" && l.step.peek == some "o") = true
        · rw [if_pos ho] at h ⊢
          exact radixPartF_mono h
        · rw [if_neg ho] at h ⊢
          by_cases hx : (g == "0" && l.step.peek == some "x") = true
          · rw [if_pos hx] at h ⊢
            exact radixPartF_mono h
          · rw [if_neg hx] at h ⊢
            exact decimalPartF_mono h

theorem stringFinish_mono {f : Nat} {kind : TokenKind} {l : Lexer}
    {x : Option LexOut × Lexer} (h : stringFinish f kind l = some x) :
    stringFinish (f + 1) kind l = some x := by
  unfold stringFinish at h ⊢
  cases hs : stringLoopF f kind l with
  | none =>
    simp only [hs] at h
    exact Option.noConfusion h
  | some y =>
    obtain ⟨b, l1⟩ := y
    simp only [hs] at h
    simp only [stringLoopF_mono hs]
    cases b with
    | true => exact h
    | false => exact h

theorem lexStringF_mono {f : Nat} {l : Lexer} {x : Option LexOut × Lexer}
    (h : lexStringF f l = some x) : lexStringF (f + 1) l = some x := by
  unfold lexStringF at h ⊢
  cases he1 : l.expect ["@", "\"", "\"", "\""] with
  | mk b1 l1 =>
    simp only [he1] at h ⊢
    cases b1 with
    | true => exact stringFinish_mono h
    | false =>
      cases he2 : l.expect ["\"", "\"", "\""] with
      | mk b2 l2 =>
        simp only [he2] at h ⊢
        cases b2 with
        | true => exact stringFinish_mono h
        | false =>
          cases he3 : l.expect ["\""] with
          | mk b3 l3 =>
            simp only [he3] at h ⊢
            cases b3 with
            | true => exact stringFinish_mono h
            | false => exact h

theorem lexProdsF_mono {f : Nat} {l : Lexer} {x : Option LexOut × Lexer}
    (h : lexProdsF f l = some x) : lexProdsF (f + 1) l = some x := by
  unfold lexProdsF at h ⊢
  cases hsp : lexSpaceF f l with
  | none =>
    simp only [hsp] at h
    exact Option.noConfusion h
  | some y =>
    obtain ⟨r1, l1⟩ := y
    simp only [hsp] at h
    simp only [lexSpaceF_mono hsp]
    cases r1 with
    | some rr => exact h
    | none =>
      cases hnl : l1.lexNewline with
      | mk r2 l2 =>
        simp only [hnl] at h ⊢
        cases r2 with
        | some rr => exact h
        | none =>
          cases hcm : lexCommentF f l2 with
          | none =>
            simp only [hcm] at h
            exact Option.noConfusion h
          | some y2 =>
            obtain ⟨r3, l3⟩ := y2
            simp only [hcm] at h
            simp only [lexCommentF_mono hcm]
            cases r3 with
            | some rr => exact h
            | none =>
              cases hnm : lexNameF f l3 with
              | none =>
                simp only [hnm] at h
                exact Option.noConfusion h
              | some y3 =>
                obtain ⟨r4, l4⟩ := y3
                simp only [hnm] at h
                simp only [lexNameF_mono hnm]
                cases r4 with
                | some rr => exact h
                | none =>
                  cases hnum : lexNumberF f l4 with
                  | none =>
                    simp only [hnum] at h
                    exact Option.noConfusion h
                  | some y4 =>
                    obtain ⟨r5, l5⟩ := y4
                    simp only [hnum] at h
                    simp only [lexNumberF_mono hnum]
                    cases r5 with
                    | some rr => exact h
                    | none =>
                      cases hst : lexStringF f l5 with
                      | none =>
                        simp only [hst] at h
                        exact Option.noConfusion h
                      | some y5 =>
                        obtain ⟨r6, l6⟩ := y5
                        simp only [hst] at h
                        simp only [lexStringF_mono hst]
                        cases r6 with
                        | some rr => exact h
                        | none => exact h

theorem lexProdsF_mono_le {f f2 : Nat} (hle : f ≤ f2) {l : Lexer}
    {x : Option LexOut × Lexer} (h : lexProdsF f l = some x) : lexProdsF f2 l = some x := by
  induction hle with
  | refl => exact h
  | step _ ih => exact lexProdsF_mono ih

theorem setMark_eq {a b : Lexer} (hi : a.index = b.index) (hs : a.source = b.source) :
    a.setMark = b.setMark := by
  cases a
  cases b
  simp [Lexer.setMark] at *
  exact ⟨hi, hs⟩

theorem peek_congr {a b : Lexer} (hi : a.index = b.index) (hs : a.source = b.source) :
    a.peek = b.peek := by
  unfold Lexer.peek
  rw [hi, hs]

theorem lexProdsF_det {fa fb : Nat} {l : Lexer} {xa xb : Option LexOut × Lexer}
    (ha : lexProdsF fa l = some xa) (hb : lexProdsF fb l = some xb) : xa = xb := by
  rcases Nat.le_total fa fb with hle | hle
  · rw [lexProdsF_mono_le hle ha] at hb
    exact Option.some.inj hb
  · rw [lexProdsF_mono_le hle hb] at ha
    exact (Option.some.inj ha).symm

theorem unkStep : ∀ {f : Nat} {cl cl1 : Lexer} {e : LexerError},
    lexNextF f true cl = some (some (LexOut.err e), cl1) →
    e.kind = LexerErrorKind.UnknownSequence →
    (∃ g, cl.peek = some g) ∧ cl1.index = cl.index + 1 ∧ cl1.source = cl.source := by
  intro f
  cases f with
  | zero => intro cl cl1 e h hk; simp [lexNextF] at h
  | succ f =>
    intro cl cl1 e h hk
    unfold lexNextF at h
    split at h
    · simp at h
    · rename_i g hp
      simp only [eq_self_iff_true, if_true] at h
      split at h
      · simp at h
      · rename_i r1 l1 hps
        simp at h
        obtain ⟨h1, h2⟩ := h
        exact absurd hk ((lexProdsF_ok hps).2.2.1 e (by rw [h1]))
      · rename_i l1 hps
        have hid : l1 = cl.setMark := (lexProdsF_ok hps).2.1 rfl
        simp at h
        obtain ⟨h1, h2⟩ := h
        subst hid
        have hstep : (cl.setMark).step = { cl.setMark with index := cl.setMark.index + 1 } :=
          step_of_peek (show (cl.setMark).peek = some g from hp)
        refine ⟨⟨g, hp⟩, ?_, ?_⟩
        · rw [← h2, hstep]
          exact rfl
        · rw [← h2, hstep]
          exact rfl
theorem coalesce_exit : ∀ {f : Nat} {cl s s2 : Lexer}, coalesceF f cl s = some s2 →
    cl.index = s.index → cl.source = s.source →
    ∃ fc : Nat, ∃ cl2 : Lexer, ∃ res : Option LexOut × Lexer,
      lexNextF fc true cl2 = some res ∧ cl2.index = s2.index ∧ cl2.source = s2.source ∧
      NotUnkRes res := by
  intro f
  induction f with
  | zero => intro cl s s2 h hi hs; simp [coalesceF] at h
  | succ f ih =>
    intro cl s s2 h hi hs
    unfold coalesceF at h
    split at h
    · simp at h
    · rename_i e cl1 hres
      split at h
      · rename_i hk
        have hk2 : e.kind = LexerErrorKind.UnknownSequence := by
          simpa using hk
        obtain ⟨⟨g, hpg⟩, hi1, hs1⟩ := unkStep hres hk2
        have hpgs : s.peek = some g := by
          rw [← peek_congr hi hs]
          exact hpg
        have hsstep : s.step = { s with index := s.index + 1 } := step_of_peek hpgs
        refine ih h ?_ ?_
        · rw [hi1, hsstep, hi]
        · rw [hs1, hsstep, hs]
      · rename_i hk
        simp at h
        refine ⟨f, cl, (some (LexOut.err e), cl1), hres, by rw [← h, hi], by rw [← h, hs], ?_⟩
        show e.kind ≠ LexerErrorKind.UnknownSequence
        simpa using hk
    · rename_i val hno hres
      simp at h
      refine ⟨f, cl, val, hres, by rw [← h, hi], by rw [← h, hs], ?_⟩
      unfold NotUnkRes
      split
      · rename_i e2 lx
        exact ((hno e2 lx) rfl).elim
      · trivial

theorem unknownNext : ∀ {f f2 : Nat} {l l2 l3 : Lexer} {e : LexerError} {o2 : LexOut},
    lexNextF f false l = some (some (LexOut.err e), l2) →
    e.kind = LexerErrorKind.UnknownSequence →
    lexNextF f2 false l2 = some (some o2, l3) →
    isUnknown o2 = false := by
  intro f f2 l l2 l3 e o2 h1 hk h2
  cases f with
  | zero => simp [lexNextF] at h1
  | succ f =>
    unfold lexNextF at h1
    split at h1
    · simp at h1
    · rename_i g hp
      simp only [Bool.false_eq_true, if_false] at h1
      split at h1
      · simp at h1
      · rename_i r1 l1 hps
        simp at h1
        obtain ⟨ha, hb⟩ := h1
        exact absurd hk ((lexProdsF_ok hps).2.2.1 e (by rw [ha]))
      · rename_i l1 hps
        have hid : l1 = l.setMark := (lexProdsF_ok hps).2.1 rfl
        subst hid
        split at h1
        · simp at h1
        · rename_i s2 hco
          simp at h1
          obtain ⟨ha, hb⟩ := h1
          obtain ⟨fc, cl2, res, hres, hidx, hsrc, hnu⟩ := coalesce_exit hco rfl rfl
          rw [hb] at hidx hsrc
          cases f2 with
          | zero => simp [lexNextF] at h2
          | succ f2 =>
            unfold lexNextF at h2
            split at h2
            · simp at h2
            · rename_i g2 hp2
              simp only [Bool.false_eq_true, if_false] at h2
              split at h2
              · simp at h2
              · rename_i r2 l2b hps2
                simp at h2
                obtain ⟨hc, hd⟩ := h2
                rw [← hc]
                cases r2 with
                | tok t => rfl
                | err e2 =>
                  have hne := (lexProdsF_ok hps2).2.2.1 e2 rfl
                  simpa [isUnknown] using hne
              · rename_i l2c hps2
                exfalso
                cases fc with
                | zero => simp [lexNextF] at hres
                | succ fc =>
                  unfold lexNextF at hres
                  have hpcl2 : cl2.peek = some g2 := by
                    rw [peek_congr hidx hsrc]
                    exact hp2
                  simp only [hpcl2] at hres
                  have hsm : cl2.setMark = l2.setMark := setMark_eq hidx hsrc
                  rw [hsm] at hres
                  cases hps3 : lexProdsF fc l2.setMark with
                  | none =>
                    rw [hps3] at hres
                    simp at hres
                  | some y =>
                    have hdet := lexProdsF_det hps3 hps2
                    rw [hdet] at hps3
                    rw [hps3] at hres
                    simp at hres
                    rw [← hres] at hnu
                    simp [NotUnkRes, Lexer.mkError] at hnu

theorem takeWhileF_diverges {pred : String → Bool} {l : Lexer} {g : String}
    (hp : l.peek = some g) (hpr : pred g = true) :
    ∀ (f c : Nat), takeWhileF f pred l c = none := by
  intro f
  induction f with
  | zero => intro c; rfl
  | succ f ih =>
    intro c
    unfold takeWhileF
    simp only [hp, hpr, Bool.not_true, Bool.false_eq_true, if_false]
    exact ih (c + 1)

theorem lexNameF_A_none : ∀ f : Nat, lexNameF f (Lexer.new ["A"]) = none := by
  intro f
  cases f with
  | zero => rfl
  | succ f =>
    have h2 : ∀ c, takeWhileF (f + 1) is_alphanum (Lexer.new ["A"]) c = none :=
      takeWhileF_diverges (l := Lexer.new ["A"]) (g := "A") rfl rfl (f + 1)
    unfold lexNameF
    simp only [show (Lexer.new ["A"]).peek = some "A" from rfl,
      show (!is_alpha "A") = false from rfl, Bool.false_eq_true, if_false,
      show takeWhileF (f + 1) (fun g => g == "_") (Lexer.new ["A"]) 0 =
        some (0, Lexer.new ["A"]) from rfl,
      show is_lower "A" = false from rfl,
      show is_upper "A" = true from rfl, if_true, h2]

theorem lexProdsF_A_none : ∀ f : Nat, lexProdsF f (Lexer.new ["A"]) = none := by
  intro f
  cases f with
  | zero => rfl
  | succ f =>
    unfold lexProdsF
    simp only [show lexSpaceF (f + 1) (Lexer.new ["A"]) = some (none, Lexer.new ["A"]) from rfl,
      show Lexer.lexNewline (Lexer.new ["A"]) = (none, Lexer.new ["A"]) from rfl,
      show lexCommentF (f + 1) (Lexer.new ["A"]) = some (none, Lexer.new ["A"]) from rfl,
      lexNameF_A_none]

theorem lexNextF_A_none : ∀ f : Nat, lexNextF f false (Lexer.new ["A"]) = none := by
  intro f
  cases f with
  | zero => rfl
  | succ f =>
    unfold lexNextF
    simp only [show (Lexer.new ["A"]).peek = some "A" from rfl,
      show (Lexer.new ["A"]).setMark = Lexer.new ["A"] from rfl,
      lexProdsF_A_none]

theorem peek_eq_head (l : Lexer) : l.peek = (l.source.drop l.index).head? := by
  have h : (l.source.drop l.index).head? = l.source.get? l.index := by
    rw [← List.get?_zero]
    simp [List.get?_eq_getElem?, List.getElem?_drop]
  unfold Lexer.peek
  exact h.symm

theorem frontMatch_self_append : ∀ (p t : List String), frontMatch p (p ++ t) = true := by
  intro p
  induction p with
  | nil => intro t; rfl
  | cons a ps ih =>
    intro t
    simp only [List.cons_append, frontMatch, Bool.and_eq_true]
    exact ⟨by simp, ih t⟩

theorem expect_of_drop {l : Lexer} {p t : List String}
    (h : l.source.drop l.index = p ++ t) :
    l.expect p = (true, { l with index := l.index + p.length }) := by
  unfold Lexer.expect
  rw [h]
  rw [if_pos (frontMatch_self_append p t)]

theorem expect_head_false {l : Lexer} {p : String} {r : List String} {g : String}
    {tl : List String} (hd : l.source.drop l.index = g :: tl) (hne : (p == g) = false) :
    l.expect (p :: r) = (false, l) := by
  unfold Lexer.expect
  rw [hd]
  rw [if_neg (by simp [frontMatch, hne])]

theorem expect_second_false {l : Lexer} {p q : String} {r : List String} {g h : String}
    {tl : List String} (hd : l.source.drop l.index = g :: h :: tl)
    (_hpg : (p == g) = true) (hne : (q == h) = false) :
    l.expect (p :: q :: r) = (false, l) := by
  unfold Lexer.expect
  rw [hd]
  rw [if_neg (by simp [frontMatch, hne])]

theorem drop_step {l : Lexer} {g : String} {tl : List String}
    (hd : l.source.drop l.index = g :: tl) :
    l.step = { l with index := l.index + 1 } ∧
    l.source.drop (l.index + 1) = tl := by
  have hp : l.peek = some g := by
    rw [peek_eq_head, hd]
    rfl
  refine ⟨step_of_peek hp, ?_⟩
  have h2 : l.source.drop (l.index + 1) = (l.source.drop l.index).drop 1 := by
    rw [List.drop_drop]
  rw [h2, hd]
  rfl

theorem lexer_ext {a b : Lexer} (hi : a.index = b.index) (hm : a.mark = b.mark)
    (hs : a.source = b.source) : a = b := by
  cases a
  cases b
  simp at hi hm hs
  simp [hi, hm, hs]

theorem stringLoop_run_close : ∀ (content : List String) (l : Lexer) (rest : List String),
    "\"" ∉ content → l.source.drop l.index = content ++ "\"" :: rest →
    stringLoopF (content.length + 2) TokenKind.StringSingle l =
      some (true, { l with index := l.index + content.length + 1 }) := by
  intro content
  induction content with
  | nil =>
    intro l rest hq hd
    simp only [List.nil_append] at hd
    have hp : l.peek = some "\"" := by
      rw [peek_eq_head, hd]
      rfl
    unfold stringLoopF
    simp only [hp, show (("\"" : String) == "\"") = true from by decide, if_true]
    rw [expect_head_false hd (by decide)]
    simp only [show (TokenKind.StringSingle == TokenKind.StringSmart
        || TokenKind.StringSingle == TokenKind.StringMulti) = false from by decide,
      Bool.false_eq_true, if_false]
    rw [expect_of_drop (p := ["\""]) (t := rest) hd]
    rfl
  | cons g content ih =>
    intro l rest hq hd
    have hg : ¬g = "\"" := by
      intro hgq
      exact hq (by rw [hgq]; exact List.mem_cons_self _ _)
    have hgb : (g == "\"") = false := by
      simp [hg]
    have hqb : (("\"" : String) == g) = false := by
      simp
      intro hc
      exact hg hc.symm
    simp only [List.cons_append] at hd
    have hp : l.peek = some g := by
      rw [peek_eq_head, hd]
      rfl
    obtain ⟨hstep, hdrop⟩ := drop_step hd
    show stringLoopF ((content.length + 2) + 1) TokenKind.StringSingle l = _
    unfold stringLoopF
    simp only [hp, hgb, Bool.false_eq_true, if_false,
      show (TokenKind.StringSingle == TokenKind.StringSmart
        || TokenKind.StringSingle == TokenKind.StringMulti) = false from by decide]
    rw [expect_head_false hd hqb]
    show stringLoopF (content.length + 2) TokenKind.StringSingle l.step =
      some (true, { l with index := l.index + (g :: content).length + 1 })
    rw [hstep]
    rw [ih { l with index := l.index + 1 } rest
      (fun hmem => hq (List.mem_cons_of_mem _ hmem)) hdrop]
    simp only [List.length_cons]
    rw [show ({ l with index := l.index + 1 } : Lexer).index + content.length + 1
        = l.index + (content.length + 1) + 1 from by
      show l.index + 1 + content.length + 1 = l.index + (content.length + 1) + 1
      omega]
theorem stringLoop_run_eof : ∀ (content : List String) (l : Lexer),
    "\"" ∉ content → l.source.drop l.index = content →
    stringLoopF (content.length + 1) TokenKind.StringSingle l =
      some (false, { l with index := l.index + content.length }) := by
  intro content
  induction content with
  | nil =>
    intro l hq hd
    have hp : l.peek = none := by
      rw [peek_eq_head, hd]
      rfl
    unfold stringLoopF
    simp only [hp]
    rfl
  | cons g content ih =>
    intro l hq hd
    have hg : ¬g = "\"" := by
      intro hgq
      exact hq (by rw [hgq]; exact List.mem_cons_self _ _)
    have hgb : (g == "\"") = false := by
      simp [hg]
    have hqb : (("\"" : String) == g) = false := by
      simp
      intro hc
      exact hg hc.symm
    have hp : l.peek = some g := by
      rw [peek_eq_head, hd]
      rfl
    obtain ⟨hstep, hdrop⟩ := drop_step hd
    show stringLoopF ((content.length + 1) + 1) TokenKind.StringSingle l = _
    unfold stringLoopF
    simp only [hp, hgb, Bool.false_eq_true, if_false,
      show (TokenKind.StringSingle == TokenKind.StringSmart
        || TokenKind.StringSingle == TokenKind.StringMulti) = false from by decide]
    rw [expect_head_false hd hqb]
    show stringLoopF (content.length + 1) TokenKind.StringSingle l.step =
      some (false, { l with index := l.index + (g :: content).length })
    rw [hstep]
    rw [ih { l with index := l.index + 1 }
      (fun hmem => hq (List.mem_cons_of_mem _ hmem)) hdrop]
    simp only [List.length_cons]
    rw [show ({ l with index := l.index + 1 } : Lexer).index + content.length
        = l.index + (content.length + 1) from by
      show l.index + 1 + content.length = l.index + (content.length + 1)
      omega]

theorem lexSpaceF_nomatch {f : Nat} {l : Lexer} {g : String} (hp : l.peek = some g)
    (hg : (g == " " || g == "\t") = false) : lexSpaceF (f + 1) l = some (none, l) := by
  have hsl : spaceLoopF (f + 1) l false = some (false, l) := by
    unfold spaceLoopF
    simp only [hp, hg, Bool.false_eq_true, if_false]
  unfold lexSpaceF
  rw [hsl]

theorem lexNewline_nomatch {l : Lexer} {g : String} {tl : List String}
    (hd : l.source.drop l.index = g :: tl)
    (h1 : (("\n" : String) == g) = false) (h2 : (("\r\n" : String) == g) = false) :
    l.lexNewline = (none, l) := by
  have e1 : l.lexExact ["\n"] TokenKind.NewLine = (none, l) := by
    unfold Lexer.lexExact
    rw [expect_head_false hd h1]
  have e2 : l.lexExact ["\r\n"] TokenKind.NewLine = (none, l) := by
    unfold Lexer.lexExact
    rw [expect_head_false hd h2]
  unfold Lexer.lexNewline
  simp only [e1, e2]

theorem lexCommentF_nomatch {f : Nat} {l : Lexer} {g : String} {tl : List String}
    (hd : l.source.drop l.index = g :: tl) (hne : (("#" : String) == g) = false) :
    lexCommentF f l = some (none, l) := by
  unfold lexCommentF
  rw [expect_head_false (r := ["[", "["]) hd hne]
  rw [expect_head_false (r := []) hd hne]

theorem lexNameF_nomatch {f : Nat} {l : Lexer} {g : String} (hp : l.peek = some g)
    (ha : is_alpha g = false) : lexNameF f l = some (none, l) := by
  unfold lexNameF
  simp only [hp, ha, Bool.not_false, if_true]

theorem lexNumberF_nomatch {f : Nat} {l : Lexer} {g : String} (hp : l.peek = some g)
    (hd : is_digit g = false) : lexNumberF f l = some (none, l) := by
  unfold lexNumberF
  simp only [hp, hd, Bool.not_false, if_true]

theorem lexProds_eq_string {n : Nat} {l0 : Lexer} {tl : List String}
    (hd : l0.source.drop l0.index = "\"" :: tl)
    {r : LexOut} {l2 : Lexer} (hstr : lexStringF (n + 1) l0 = some (some r, l2)) :
    lexProdsF (n + 1) l0 = some (some r, l2) := by
  have hp : l0.peek = some "\"" := by
    rw [peek_eq_head, hd]
    rfl
  have hsp : lexSpaceF (n + 1) l0 = some (none, l0) := lexSpaceF_nomatch hp (by decide)
  have hnl : l0.lexNewline = (none, l0) := lexNewline_nomatch hd (by decide) (by decide)
  have hcm : lexCommentF (n + 1) l0 = some (none, l0) := lexCommentF_nomatch hd (by decide)
  have hnm : lexNameF (n + 1) l0 = some (none, l0) := lexNameF_nomatch hp (by decide)
  have hnum : lexNumberF (n + 1) l0 = some (none, l0) := lexNumberF_nomatch hp (by decide)
  unfold lexProdsF
  simp only [hsp, hnl, hcm, hnm, hnum, hstr]

theorem lexNext_of_prods {n : Nat} {src : List String} {r : LexOut} {l2 : Lexer} {g : String}
    (hp : (Lexer.new src).peek = some g)
    (hpr : lexProdsF (n + 1) (Lexer.new src) = some (some r, l2)) :
    lexNextF (n + 2) false (Lexer.new src) = some (some r, l2) := by
  unfold lexNextF
  simp only [hp, show (Lexer.new src).setMark = Lexer.new src from rfl, hpr]

theorem lexString_single_closed (c0 : String) (ctail rest : List String)
    (hq : "\"" ∉ c0 :: ctail) :
    lexStringF ((c0 :: ctail).length + 2) (Lexer.new ("\"" :: (c0 :: ctail) ++ "\"" :: rest)) =
      some (some (LexOut.tok
        { text := "\"" :: (c0 :: ctail) ++ ["\""], kind := TokenKind.StringSingle,
          span := { start := 0, stop := (c0 :: ctail).length + 2 } }),
        { index := (c0 :: ctail).length + 2, mark := 0,
          source := "\"" :: (c0 :: ctail) ++ "\"" :: rest }) := by
  have hc0 : (("\"" : String) == c0) = false := by
    have hne : c0 ≠ "\"" := fun hh => hq (by rw [hh]; exact List.mem_cons_self _ _)
    simp
    intro hcc
    exact hne hcc.symm
  have hd0 : (Lexer.new ("\"" :: (c0 :: ctail) ++ "\"" :: rest)).source.drop
      (Lexer.new ("\"" :: (c0 :: ctail) ++ "\"" :: rest)).index =
      "\"" :: ((c0 :: ctail) ++ "\"" :: rest) := rfl
  unfold lexStringF
  rw [expect_head_false (r := ["\"", "\"", "\""]) hd0 (by decide)]
  rw [expect_second_false (r := ["\""])
    (show (Lexer.new ("\"" :: (c0 :: ctail) ++ "\"" :: rest)).source.drop
      (Lexer.new ("\"" :: (c0 :: ctail) ++ "\"" :: rest)).index =
      "\"" :: c0 :: (ctail ++ "\"" :: rest) from hd0) (by decide) hc0]
  rw [expect_of_drop (p := ["\""]) (t := (c0 :: ctail) ++ "\"" :: rest) hd0]
  show stringFinish ((c0 :: ctail).length + 2) TokenKind.StringSingle
    (⟨1, 0, "\"" :: (c0 :: ctail) ++ "\"" :: rest⟩ : Lexer) = _
  unfold stringFinish
  rw [stringLoop_run_close (c0 :: ctail)
    (⟨1, 0, "\"" :: (c0 :: ctail) ++ "\"" :: rest⟩ : Lexer) rest hq rfl]
  rw [show (⟨1, 0, "\"" :: (c0 :: ctail) ++ "\"" :: rest⟩ : Lexer).index
      + (c0 :: ctail).length + 1 = (c0 :: ctail).length + 2 from by
      show 1 + (c0 :: ctail).length + 1 = (c0 :: ctail).length + 2
      omega]
  simp only [Lexer.extract, Lexer.textSlice, Lexer.spanNow, sliceG, Nat.sub_zero,
    List.drop_zero]
  rw [show (c0 :: ctail).length + 1 + 1 = ("\"" :: c0 :: ctail).length + 1 from by
    simp only [List.length_cons]]
  rw [List.take_append]
  simp

theorem lexString_single_eof (c0 : String) (ctail : List String)
    (hq : "\"" ∉ c0 :: ctail) :
    lexStringF ((c0 :: ctail).length + 2) (Lexer.new ("\"" :: c0 :: ctail)) =
      some (some (LexOut.err
        { text := "\"" :: c0 :: ctail, kind := LexerErrorKind.Incomplete,
          span := { start := 0, stop := (c0 :: ctail).length + 1 },
          token_kind := some TokenKind.StringSingle }),
        (⟨(c0 :: ctail).length + 1, 0, "\"" :: c0 :: ctail⟩ : Lexer)) := by
  have hc0 : (("\"" : String) == c0) = false := by
    have hne : c0 ≠ "\"" := fun hh => hq (by rw [hh]; exact List.mem_cons_self _ _)
    simp
    intro hcc
    exact hne hcc.symm
  have hd0 : (Lexer.new ("\"" :: c0 :: ctail)).source.drop
      (Lexer.new ("\"" :: c0 :: ctail)).index = "\"" :: c0 :: ctail := rfl
  unfold lexStringF
  rw [expect_head_false (r := ["\"", "\"", "\""]) hd0 (by decide)]
  rw [expect_second_false (r := ["\""]) hd0 (by decide) hc0]
  rw [expect_of_drop (p := ["\""]) (t := c0 :: ctail) hd0]
  show stringFinish ((c0 :: ctail).length + 2) TokenKind.StringSingle
    (⟨1, 0, "\"" :: c0 :: ctail⟩ : Lexer) = _
  unfold stringFinish
  have hloop : stringLoopF ((c0 :: ctail).length + 2) TokenKind.StringSingle
      (⟨1, 0, "\"" :: c0 :: ctail⟩ : Lexer) =
      some (false, (⟨1 + (c0 :: ctail).length, 0, "\"" :: c0 :: ctail⟩ : Lexer)) :=
    stringLoopF_mono
      (stringLoop_run_eof (c0 :: ctail) (⟨1, 0, "\"" :: c0 :: ctail⟩ : Lexer) hq rfl)
  rw [hloop]
  rw [show (1 : Nat) + (c0 :: ctail).length = (c0 :: ctail).length + 1 from by omega]
  simp only [Lexer.mkError, Lexer.textSlice, Lexer.spanNow, sliceG, Nat.sub_zero,
    List.drop_zero]
  rw [show (c0 :: ctail).length + 1 = (c0 :: ctail).length + 1 from rfl,
    List.take_succ_cons, List.take_length]


/-- C1: the claim says every call to `next_token` terminates and the engine
reaches end of stream in at most `|S|` outputs.  On the one-grapheme source
"A" the very first call never returns: `lex_name` reaches
`take_while(is_alphanum)` with the un-consumed "A" still peeked, and
`take_while` never advances the cursor, so no amount of fuel completes the
call. -/
theorem claim1_next_token_nonterminating :
    ∀ fuel : Nat, lexNextF fuel false (Lexer.new ["A"]) = none :=
  lexNextF_A_none

/-- C2: concatenating the text fields of all outputs of a completed
iteration reconstructs the source exactly, the first output starts at
offset 0, each output's span begins where the previous one ended, and the
last output ends at `|S|`. -/
theorem claim2_coverage (src : List String) (fuel : Nat) (outs : List LexOut)
    (h : lexAllF fuel (Lexer.new src) = some outs) :
    (outs.map outText).flatten = src ∧ spansChainTo 0 src.length outs := by
  obtain ⟨h1, h2⟩ := lexAllF_cov h (Nat.zero_le _)
  constructor
  · rw [h1]
    exact sliceG_full src
  · exact h2

theorem claim2_coverage_witness :
    (([LexOut.tok ⟨["a"], TokenKind.NameLower, ⟨0, 1⟩⟩,
       LexOut.tok ⟨["+"], TokenKind.Plus, ⟨1, 2⟩⟩,
       LexOut.tok ⟨["b"], TokenKind.NameLower, ⟨2, 3⟩⟩].map outText).flatten
        = ["a", "+", "b"] ∧
      spansChainTo 0 (["a", "+", "b"] : List String).length
        [LexOut.tok ⟨["a"], TokenKind.NameLower, ⟨0, 1⟩⟩,
         LexOut.tok ⟨["+"], TokenKind.Plus, ⟨1, 2⟩⟩,
         LexOut.tok ⟨["b"], TokenKind.NameLower, ⟨2, 3⟩⟩]) :=
  claim2_coverage ["a", "+", "b"] 32
    [LexOut.tok ⟨["a"], TokenKind.NameLower, ⟨0, 1⟩⟩,
     LexOut.tok ⟨["+"], TokenKind.Plus, ⟨1, 2⟩⟩,
     LexOut.tok ⟨["b"], TokenKind.NameLower, ⟨2, 3⟩⟩] (by rfl)

/-- C3: the claim says nested block comments track a depth counter, so that
`#[[ a #[[ b ]] c ]]` is one `CommentBlock` token.  The code never
increments the depth on an inner `#[[`, so the comment ends at the first
`]]` and the tail is lexed as ordinary tokens. -/
theorem claim3_block_comment_no_nesting :
    lexAllF 100 (Lexer.new
      ["#", "[", "[", " ", "a", " ", "#", "[", "[", " ", "b", " ", "]", "]",
       " ", "c", " ", "]", "]"]) =
    some [LexOut.tok ⟨["#", "[", "[", " ", "a", " ", "#", "[", "[", " ", "b", " ", "]", "]"],
            TokenKind.CommentBlock, ⟨0, 14⟩⟩,
          LexOut.tok ⟨[" "], TokenKind.Space, ⟨14, 15⟩⟩,
          LexOut.tok ⟨["c"], TokenKind.NameLower, ⟨15, 16⟩⟩,
          LexOut.tok ⟨[" "], TokenKind.Space, ⟨16, 17⟩⟩,
          LexOut.tok ⟨["]"], TokenKind.BracketR, ⟨17, 18⟩⟩,
          LexOut.tok ⟨["]"], TokenKind.BracketR, ⟨18, 19⟩⟩] := by
  rfl

/-- C4: the claim says the escape sequence backslash-quote is consumed as
string content, so `"a\"b"` is one `StringSingle` token.  The escape test
in the code requires the peeked grapheme to equal a quote and a backslash
at the same position, which is impossible, so the string closes at the
first quote after the opener. -/
theorem claim4_escape_never_taken :
    lexAllF 60 (Lexer.new ["\"", "a", "\\", "\"", "b", "\""]) =
    some [LexOut.tok ⟨["\"", "a", "\\", "\""], TokenKind.StringSingle, ⟨0, 4⟩⟩,
          LexOut.tok ⟨["b"], TokenKind.NameLower, ⟨4, 5⟩⟩,
          LexOut.err ⟨["\""], LexerErrorKind.Incomplete, ⟨5, 6⟩,
            some TokenKind.StringSingle⟩] := by
  rfl

/-- C5: the claim says a `.` followed by a digit switches the number to a
`Float` covering the fraction, so `1.5e-3` is one `Float` token.  The
fraction test in the code peeks the `.` itself a second time instead of
the grapheme after it, so `is_digit` is tested on `.` and the fraction
branch never fires. -/
theorem claim5_fraction_never_consumed :
    lexAllF 60 (Lexer.new ["1", ".", "5", "e", "-", "3"]) =
    some [LexOut.tok ⟨["1"], TokenKind.IntDec, ⟨0, 1⟩⟩,
          LexOut.tok ⟨["."], TokenKind.Dot, ⟨1, 2⟩⟩,
          LexOut.tok ⟨["5", "e", "-", "3"], TokenKind.Float, ⟨2, 6⟩⟩] := by
  rfl

/-- C6: the claim (and the doc comment of `consume_number`) says an
underscore is never the last grapheme of a number body.  The underscore
loop of `consume_number` consumes a trailing underscore even when no digit
follows, so `0x1_` is emitted as an `IntHex` token whose body ends with an
underscore. -/
theorem claim6_trailing_underscore_accepted :
    lexAllF 60 (Lexer.new ["0", "x", "1", "_"]) =
    some [LexOut.tok ⟨["0", "x", "1", "_"], TokenKind.IntHex, ⟨0, 4⟩⟩] := by
  rfl

/-- C7: the claim says `take_while(pred)` advances the cursor past every
grapheme satisfying `pred` and returns the count advanced.  The loop in the
code never calls the advance primitive: whenever `pred` holds on the peeked
grapheme the loop body repeats on an unchanged state, so the call never
returns, at any fuel. -/
theorem claim7_take_while_never_advances (pred : String → Bool) (l : Lexer) (g : String)
    (hp : l.peek = some g) (hpr : pred g = true) (fuel count : Nat) :
    takeWhileF fuel pred l count = none :=
  takeWhileF_diverges hp hpr fuel count

theorem claim7_take_while_never_advances_witness :
    takeWhileF 9 is_digit (Lexer.new ["1"]) 0 = none :=
  claim7_take_while_never_advances is_digit (Lexer.new ["1"]) "1" rfl rfl 9 0

/-- C8 counterexample: the claim says `is_whitespace`, `is_word` and
`is_op_punc` are pairwise disjoint, but `is_op_punc` as defined in
token.rs also accepts `Space` (and `NewLine`), which `is_whitespace`
accepts too. -/
theorem claim8_counterexample :
    ¬ (∀ k : token.TokenKind,
      ¬ (k.is_whitespace = true ∧ k.is_op_punc = true) ∧
      ¬ (k.is_whitespace = true ∧ k.is_word = true) ∧
      ¬ (k.is_op_punc = true ∧ k.is_word = true)) := by
  intro hall
  exact (hall token.TokenKind.Space).1 ⟨rfl, rfl⟩

/-- C8 amended: `is_word` is disjoint from both `is_whitespace` and
`is_op_punc`; `is_boundary` is the disjunction of `is_whitespace` and
`is_op_punc`; but `is_whitespace` and `is_op_punc` are not disjoint - every
whitespace kind is also accepted by `is_op_punc`. -/
theorem claim8_predicates_amended : ∀ k : token.TokenKind,
    (k.is_word = true → k.is_whitespace = false ∧ k.is_op_punc = false) ∧
    (k.is_whitespace = true → k.is_op_punc = true) ∧
    k.is_boundary = (k.is_whitespace || k.is_op_punc) := by
  intro k
  cases k <;> exact ⟨by decide, by decide, rfl⟩

theorem claim8_predicates_amended_witness :
    token.TokenKind.Lower.is_whitespace = false ∧
    token.TokenKind.Lower.is_op_punc = false :=
  (claim8_predicates_amended token.TokenKind.Lower).1 rfl

/-- C9: no two consecutive outputs of `next_token` are both
`UnknownSequence` errors: after a coalesced `UnknownSequence` error the
cursor stands where the cloned look-ahead saw a non-`UnknownSequence`
result, and the productions are deterministic, so the next output is a
token, a different error kind, or end of stream. -/
theorem claim9_no_consecutive_unknown (f f2 : Nat) (l l2 l3 : Lexer) (o1 o2 : LexOut)
    (h1 : lexNextF f false l = some (some o1, l2)) (hu : isUnknown o1 = true)
    (h2 : lexNextF f2 false l2 = some (some o2, l3)) : isUnknown o2 = false := by
  cases o1 with
  | tok t => simp [isUnknown] at hu
  | err e =>
    have hk : e.kind = LexerErrorKind.UnknownSequence := by
      simpa [isUnknown] using hu
    exact unknownNext h1 hk h2

theorem claim9_no_consecutive_unknown_witness :
    isUnknown (LexOut.tok ⟨["a"], TokenKind.NameLower, ⟨1, 2⟩⟩) = false :=
  claim9_no_consecutive_unknown 20 20 (Lexer.new ["§", "a"])
    ⟨1, 0, ["§", "a"]⟩ ⟨2, 1, ["§", "a"]⟩
    (LexOut.err ⟨["§"], LexerErrorKind.UnknownSequence, ⟨0, 1⟩, none⟩)
    (LexOut.tok ⟨["a"], TokenKind.NameLower, ⟨1, 2⟩⟩)
    (by rfl) (by rfl) (by rfl)

/-- C10: inside a `StringSingle` literal a line break is consumed as
ordinary content: for any content (which may contain line breaks) with no
quote grapheme, a closing quote ends the single token covering the whole
literal, and only end of input produces an `Incomplete` error. -/
theorem claim10_single_string_newline (content rest : List String)
    (hq : "\"" ∉ content) (hn : "\n" ∈ content) :
    (lexNextF (content.length + 3) false (Lexer.new ("\"" :: content ++ "\"" :: rest)) =
      some (some (LexOut.tok
        { text := "\"" :: content ++ ["\""], kind := TokenKind.StringSingle,
          span := { start := 0, stop := content.length + 2 } }),
        ⟨content.length + 2, 0, "\"" :: content ++ "\"" :: rest⟩)) ∧
    (lexNextF (content.length + 3) false (Lexer.new ("\"" :: content)) =
      some (some (LexOut.err
        { text := "\"" :: content, kind := LexerErrorKind.Incomplete,
          span := { start := 0, stop := content.length + 1 },
          token_kind := some TokenKind.StringSingle }),
        ⟨content.length + 1, 0, "\"" :: content⟩)) := by
  obtain ⟨c0, ctail, rfl⟩ : ∃ c0 ctail, content = c0 :: ctail := by
    cases content with
    | nil => cases hn
    | cons a l => exact ⟨a, l, rfl⟩
  constructor
  · have h0 : (Lexer.new ("\"" :: (c0 :: ctail) ++ "\"" :: rest)).source.drop
        (Lexer.new ("\"" :: (c0 :: ctail) ++ "\"" :: rest)).index
        = "\"" :: ((c0 :: ctail) ++ "\"" :: rest) := rfl
    exact lexNext_of_prods (n := (c0 :: ctail).length + 1) rfl
      (lexProds_eq_string h0 (lexString_single_closed c0 ctail rest hq))
  · have h0 : (Lexer.new ("\"" :: c0 :: ctail)).source.drop
        (Lexer.new ("\"" :: c0 :: ctail)).index = "\"" :: c0 :: ctail := rfl
    exact lexNext_of_prods (n := (c0 :: ctail).length + 1) rfl
      (lexProds_eq_string h0 (lexString_single_eof c0 ctail hq))

theorem claim10_single_string_newline_witness :
    (lexNextF ((["a", "\n", "b"] : List String).length + 3) false
        (Lexer.new ("\"" :: ["a", "\n", "b"] ++ "\"" :: [])) =
      some (some (LexOut.tok
        { text := "\"" :: ["a", "\n", "b"] ++ ["\""], kind := TokenKind.StringSingle,
          span := { start := 0, stop := (["a", "\n", "b"] : List String).length + 2 } }),
        ⟨(["a", "\n", "b"] : List String).length + 2, 0,
          "\"" :: ["a", "\n", "b"] ++ "\"" :: []⟩)) ∧
    (lexNextF ((["a", "\n", "b"] : List String).length + 3) false
        (Lexer.new ("\"" :: ["a", "\n", "b"])) =
      some (some (LexOut.err
        { text := "\"" :: ["a", "\n", "b"], kind := LexerErrorKind.Incomplete,
          span := { start := 0, stop := (["a", "\n", "b"] : List String).length + 1 },
          token_kind := some TokenKind.StringSingle }),
        ⟨(["a", "\n", "b"] : List String).length + 1, 0, "\"" :: ["a", "\n", "b"]⟩)) :=
  claim10_single_string_newline ["a", "\n", "b"] [] (by decide) (by decide)

end Kaki
